import Mathlib

/-!
Verification development for the bases-heatmap-view plugin.

The TypeScript sources are shallowly embedded:
* JS strings are `List Char`;
* a JS `Date` produced by the date pipeline is a calendar triple `JSDate`
  (year, 0-based month, 1-based day); all dates in the pipeline are
  normalized to midnight (`normalizeDate`), so the time-of-day component is
  dropped and `normalizeDate` is the identity of the model, and `getTime()`
  differences in whole days are differences of proleptic-Gregorian day
  indices (`civilIndex`), i.e. the UTC semantics without DST anomalies;
* JS numbers flowing through the data pipeline are `WithBot (WithTop ℚ)`
  (rationals extended with the two infinities; `NaN` is filtered out by the
  sources before any arithmetic and is represented by `Option` at the
  filtering points).
-/

set_option maxRecDepth 200000

/-! ### Characters and strings -/

/-- Character codes treated as whitespace by the JS `String.prototype.trim`
(the ASCII whitespace plus the Unicode space separators, NEL, LS, PS and the
BOM). -/
def isJSSpace (c : Char) : Bool :=
  let n := c.toNat
  n = 32 || n = 9 || n = 10 || n = 11 || n = 12 || n = 13 || n = 160 ||
  n = 133 || n = 5760 || (8192 ≤ n && n ≤ 8202) || n = 8232 || n = 8233 ||
  n = 8239 || n = 8287 || n = 12288 || n = 65279

/-- Left half of `String.prototype.trim`. -/
def trimLeft (s : List Char) : List Char := s.dropWhile isJSSpace

/-- Right half of `String.prototype.trim`, written by structural recursion:
a character is kept unless everything to its right is dropped and it is
itself whitespace. -/
def trimRight : List Char → List Char
  | [] => []
  | c :: cs =>
    let r := trimRight cs
    if r = [] ∧ isJSSpace c then [] else c :: r

/-- The JS `s.trim()`. -/
def jsTrim (s : List Char) : List Char := trimRight (trimLeft s)

/-- ASCII decimal-digit test (the regex class `\d`). -/
def isDigitCh (c : Char) : Bool := 48 ≤ c.toNat && c.toNat ≤ 57

/-- Numeric value of an ASCII digit character. -/
def digitVal (c : Char) : Nat := c.toNat - 48

/-- The ASCII digit character for a value below ten. -/
def digitCh (k : Nat) : Char := Char.ofNat (48 + k)

/-- Fueled digit expansion (structural recursion so that the kernel can
evaluate it; the fuel bounds the number of digits). -/
def natReprAux : Nat → Nat → List Char
  | 0, _ => []
  | fuel + 1, n =>
    if n < 10 then [digitCh n] else natReprAux fuel (n / 10) ++ [digitCh (n % 10)]

/-- Decimal rendering of a natural number, as produced by the JS
`String(n)` for nonnegative integral numbers (`n + 1` units of fuel always
suffice, so this is total and exact for every `n`). -/
def natRepr (n : Nat) : List Char := natReprAux (n + 1) n

/-- Decimal rendering of an integer (`String(i)` for integral numbers). -/
def intRepr (i : Int) : List Char :=
  if i < 0 then '-' :: natRepr (-i).toNat else natRepr i.toNat

/-- The JS `String(i).padStart(2, "0")` for the integers produced by the
date formatter (their decimal form has at least one character). -/
def pad2 (i : Int) : List Char :=
  let s := intRepr i
  if s.length < 2 then '0' :: s else s

/-- Value of a string of ASCII digits (the JS `Number(..)` restricted to the
digit groups captured by the strict ISO regex, where it never yields NaN). -/
def digitsToNat (cs : List Char) : Nat :=
  cs.foldl (fun a c => a * 10 + digitVal c) 0

/-! ### The calendar model of JS `Date` -/

/-- A JS `Date` at local midnight: extended year, 0-based month (as
`getMonth()`), 1-based day of month (as `getDate()`). -/
structure JSDate where
  year : Int
  month : Int
  day : Int
deriving DecidableEq, Repr

/-- Gregorian leap-year rule (used by the host `Date` object). -/
def isLeapYear (y : Int) : Bool := y % 4 = 0 && (y % 100 ≠ 0 || y % 400 = 0)

/-- Month lengths for a common/leap year, 0-based month index. -/
def monthLenTable (leap : Bool) : List Nat :=
  [31, if leap then 29 else 28, 31, 30, 31, 30, 31, 31, 30, 31, 30, 31]

/-- Days in month `m` (0-based) of year `y`. -/
def monthLen (y : Int) (m : Int) : Int :=
  ((monthLenTable (isLeapYear y)).getD m.toNat 31 : Nat)

/-- Cumulative days before month `m` (0-based) in a common/leap year. -/
def daysBeforeMonthTable (leap : Bool) : List Nat :=
  if leap then [0, 31, 60, 91, 121, 152, 182, 213, 244, 274, 305, 335]
  else [0, 31, 59, 90, 120, 151, 181, 212, 243, 273, 304, 334]

/-- Days before month `m` (0-based) of a year with leap flag `leap`. -/
def daysBeforeMonth (leap : Bool) (m : Int) : Int :=
  ((daysBeforeMonthTable leap).getD m.toNat 0 : Nat)

/-- Number of leap years strictly before year `y` (proleptic Gregorian,
counted from year 1; `/` on `Int` is floor division for these positive
divisors, as in the host's calendar arithmetic). -/
def leapsBefore (y : Int) : Int := (y - 1) / 4 - (y - 1) / 100 + (y - 1) / 400

/-- Proleptic-Gregorian day index of a calendar triple: day 0 is
0001-01-01.  `getTime()` of a local-midnight date is an affine function of
this index (the UTC model: one day is exactly 86400000 ms). -/
def civilIndex (d : JSDate) : Int :=
  365 * (d.year - 1) + leapsBefore d.year +
    daysBeforeMonth (isLeapYear d.year) d.month + (d.day - 1)

/-- The JS `date.getDay()`: 0 = Sunday.  Day 0 of `civilIndex`
(0001-01-01) is a Monday in the proleptic Gregorian calendar. -/
def jsGetDay (d : JSDate) : Int := (civilIndex d + 1) % 7

/-- Month normalization of the `Date` constructor: a month index outside
0..11 rolls the year (fueled; fuel 12 covers every index producible by the
embedded sources, whose month fields come from two-digit groups). -/
def normMonthAux : Nat → Int → Int → Int × Int
  | 0, y, m => (y, m)
  | fuel + 1, y, m =>
    if m < 0 then normMonthAux fuel (y - 1) (m + 12)
    else if 12 ≤ m then normMonthAux fuel (y + 1) (m - 12)
    else (y, m)

/-- Day normalization of the `Date` constructor / `setDate`: a day outside
1..monthLen borrows from or carries into the adjacent months (fueled; fuel
50 covers every day field producible by the embedded sources, which are
two-digit groups or an in-range day plus one). -/
def normDayAux : Nat → Int → Int → Int → JSDate
  | 0, y, m, d => ⟨y, m, d⟩
  | fuel + 1, y, m, d =>
    if d < 1 then
      let p := normMonthAux 12 y (m - 1)
      normDayAux fuel p.1 p.2 (d + monthLen p.1 p.2)
    else if monthLen y m < d then
      let p := normMonthAux 12 y (m + 1)
      normDayAux fuel p.1 p.2 (d - monthLen y m)
    else ⟨y, m, d⟩

/-- The JS `new Date(year, monthIndex, day)` at midnight: years 0..99 are
read as 1900..1999, then month and day are normalized. -/
def jsMakeDate (year month day : Int) : JSDate :=
  let y := if 0 ≤ year ∧ year ≤ 99 then year + 1900 else year
  let p := normMonthAux 12 y month
  normDayAux 50 p.1 p.2 day

/-- The JS `current.setDate(current.getDate() + 1)` (no 0..99 year quirk:
`setDate` only renormalizes the day). -/
def jsNextDay (d : JSDate) : JSDate := normDayAux 50 d.year d.month (d.day + 1)

/-- Date comparison `a <= b` (via `getTime()`). -/
def dateLe (a b : JSDate) : Bool := civilIndex a ≤ civilIndex b

/-! ### date.ts -/

/-- Shape test of the strict ISO regex `^(\d{4})-(\d{2})-(\d{2})$`. -/
def isoShape (t : List Char) : Bool :=
  t.length = 10 &&
  isDigitCh (t.getD 0 ' ') && isDigitCh (t.getD 1 ' ') &&
  isDigitCh (t.getD 2 ' ') && isDigitCh (t.getD 3 ' ') &&
  t.getD 4 ' ' = '-' &&
  isDigitCh (t.getD 5 ' ') && isDigitCh (t.getD 6 ' ') &&
  t.getD 7 ' ' = '-' &&
  isDigitCh (t.getD 8 ' ') && isDigitCh (t.getD 9 ' ')

/-- date.ts `parseISODateString`: trim, match the strict ISO regex, then
build `new Date(year, month - 1, day)` and normalize to midnight (the
`isNaN` guards of the source never fire on digit groups). -/
def parseISODateString (s : List Char) : Option JSDate :=
  let t := jsTrim s
  if isoShape t then
    let y := digitsToNat [t.getD 0 ' ', t.getD 1 ' ', t.getD 2 ' ', t.getD 3 ' ']
    let m := digitsToNat [t.getD 5 ' ', t.getD 6 ' ']
    let d := digitsToNat [t.getD 8 ' ', t.getD 9 ' ']
    some (jsMakeDate (y : Int) ((m : Int) - 1) (d : Int))
  else none

/-- date.ts `formatDateISO`: year unpadded, month+1 and day padded to two
characters. -/
def formatDateISO (dt : JSDate) : List Char :=
  intRepr dt.year ++ '-' :: (pad2 (dt.month + 1) ++ '-' :: pad2 dt.day)

/-- date.ts `getDayOfWeek` (`weekStart` is 0 or 1). -/
def getDayOfWeek (d : JSDate) (weekStart : Nat) : Int :=
  let day := jsGetDay d
  if weekStart = 0 then day else if day = 0 then 6 else day - 1

/-- date.ts `getWeekNumber`: 1-based week index of `d` relative to
`rangeStart` (`Math.floor` of the day difference is exact in the midnight
model, and `/` on `Int` is floor division for the positive divisor 7). -/
def getWeekNumber (d : JSDate) (rangeStart : JSDate) (weekStart : Nat) : Int :=
  let diffDays := civilIndex d - civilIndex rangeStart
  let sd := getDayOfWeek rangeStart weekStart
  (diffDays + sd) / 7 + 1

/-- The canonical `YYYY-MM-DD` rendering of a calendar date expected by the
specification (every valid four-digit-year ISO date string arises this
way); this is the specification-side description of the strings quantified
over by the round-trip property. -/
def isoRender (y m d : Nat) : List Char :=
  [digitCh (y / 1000), digitCh (y / 100 % 10), digitCh (y / 10 % 10),
   digitCh (y % 10), '-', digitCh (m / 10), digitCh (m % 10), '-',
   digitCh (d / 10), digitCh (d % 10)]

/-! ### JS numbers and the extracted values of the data module -/

/-- JS numbers reached by the aggregation pipeline: rationals extended with
the two infinities (`Math.min`/`Math.max` start from `Infinity` and
`-Infinity`; `NaN` never enters, being filtered by the sources). -/
abbrev JSNum := WithBot (WithTop ℚ)

/-- A finite JS number. -/
def jsNum (q : ℚ) : JSNum := ((q : WithTop ℚ) : JSNum)

/-- The starting accumulator `Infinity` of the running minimum. -/
def posInf : JSNum := ((⊤ : WithTop ℚ) : JSNum)

/-- The starting accumulator `-Infinity` of the running maximum. -/
def negInf : JSNum := ⊥

/-- types.ts `ValueType`. -/
inductive ValueType where
  | boolean
  | number
  | unsupported
deriving DecidableEq, Repr

/-- The runtime value union read from a Bases property (the closed variant
of value kinds the extraction logic distinguishes): null, `BooleanValue`,
`NumberValue` (carrying its `toString` rendering and the result of
`Number(...)` on it, `none` standing for NaN), `StringValue`, or any other
value class (carrying its `toString` rendering). -/
inductive ObsValue where
  | nullV
  | boolV (b : Bool)
  | numV (s : List Char) (v : Option JSNum)
  | strV (s : List Char)
  | otherV (s : List Char)
deriving DecidableEq

/-- Result triple of data.ts `extractValue`. -/
structure ExtractedValue where
  value : Option JSNum
  displayValue : List Char
  type : ValueType

/-- data.ts helper `unsupported`. -/
def unsupportedRes (s : List Char) : ExtractedValue := ⟨none, s, ValueType.unsupported⟩

/-- ASCII lowercasing (the JS `toLowerCase` restricted to ASCII letters: no
other code point lowercases to the pure-ASCII words compared against). -/
def toLowerAscii (c : Char) : Char :=
  if 65 ≤ c.toNat ∧ c.toNat ≤ 90 then Char.ofNat (c.toNat + 32) else c

/-- data.ts `parseStringAsNumber`: trim, test `^-?\d+(\.\d+)?$`, then
`parseFloat` (exact on this shape); returns the parsed value and the
original string as display value. -/
def parseStringAsNumber (s : List Char) : Option (ℚ × List Char) :=
  let t := jsTrim s
  let sign : ℚ := if t.headD ' ' = '-' then -1 else 1
  let r := if t.headD ' ' = '-' then t.drop 1 else t
  let ip := r.takeWhile isDigitCh
  let rest := r.drop ip.length
  if ip = [] then none
  else
    match rest with
    | [] => some (sign * (digitsToNat ip : ℚ), s)
    | '.' :: fp =>
      if fp ≠ [] ∧ fp.all isDigitCh then
        some (sign * ((digitsToNat ip : ℚ) + (digitsToNat fp : ℚ) / (10 : ℚ) ^ fp.length), s)
      else none
    | _ => none

/-- data.ts `parseStringAsBoolean`. -/
def parseStringAsBoolean (s : List Char) : Option (ℚ × List Char) :=
  let lower := s.map toLowerAscii
  if lower = "true".data ∨ lower = "yes".data then some (1, "Yes".data)
  else if lower = "false".data ∨ lower = "no".data then some (0, "No".data)
  else none

/-- data.ts `extractValue`, by cases on the runtime class of the property
value (`propName` is the value property id, used in the placeholder
display string). -/
def extractValue (propName : List Char) (ov : ObsValue) : ExtractedValue :=
  match ov with
  | ObsValue.nullV => unsupportedRes (propName ++ ": not set".data)
  | ObsValue.boolV b =>
    ⟨some (jsNum (if b then 1 else 0)), (if b then "Yes" else "No").data,
      ValueType.boolean⟩
  | ObsValue.numV s v =>
    match v with
    | none => unsupportedRes s
    | some q => ⟨some q, s, ValueType.number⟩
  | ObsValue.strV s =>
    match parseStringAsNumber s with
    | some r => ⟨some (jsNum r.1), r.2, ValueType.number⟩
    | none =>
      match parseStringAsBoolean s with
      | some r => ⟨some (jsNum r.1), r.2, ValueType.boolean⟩
      | none => unsupportedRes s
  | ObsValue.otherV s => unsupportedRes s

/-! ### data.ts `processData` -/

/-- One raw Bases entry as seen by `processData`.  `dateISO` is the result
of `extractDate` on the entry (the configured date property or filename
parsed to an ISO key, or `null`); its internals call the external
`moment`-format and host `Date(string)` parsers, so the extractor is
embedded at its interface, as the resolved key.  `value` is the runtime
value of the configured value property and `note` identifies the backing
file. -/
structure SEntry where
  dateISO : Option (List Char)
  value : ObsValue
  note : Nat
deriving DecidableEq

/-- types.ts `HeatmapEntry`. -/
structure HeatmapEntry where
  date : List Char
  value : Option JSNum
  note : Nat
  displayValue : List Char
deriving DecidableEq

/-- Lookup in the date → entry map (JS `Map.get`). -/
def lookupEntry : List (List Char × HeatmapEntry) → List Char → Option HeatmapEntry
  | [], _ => none
  | (k, v) :: rest, key => if k = key then some v else lookupEntry rest key

/-- Update of the date → entry map (JS `Map.set`). -/
def setEntry : List (List Char × HeatmapEntry) → List Char → HeatmapEntry →
    List (List Char × HeatmapEntry)
  | [], key, v => [(key, v)]
  | (k, w) :: rest, key, v =>
    if k = key then (k, v) :: rest else (k, w) :: setEntry rest key v

/-- Accumulator of the `processData` loop. -/
structure PDState where
  entries : List (List Char × HeatmapEntry)
  statMin : JSNum
  statMax : JSNum
  count : Nat
  vt : Option ValueType

/-- One step of the running value type: first seen type, flip to
unsupported on mismatch (the inner match of `pdStep`, named for the
characterization proofs). -/
def vtStep (cur : Option ValueType) (t : ValueType) : Option ValueType :=
  match cur with
  | none => some t
  | some u => if u ≠ t then some ValueType.unsupported else some u

/-- The `shouldSet` condition of the `processData` loop: set when the date
is absent, or when the new value is non-null and the stored one is null or
smaller. -/
def shouldSetB (cur : Option HeatmapEntry) (v : Option JSNum) : Bool :=
  match cur, v with
  | none, _ => true
  | some _, none => false
  | some ex, some w =>
    match ex.value with
    | none => true
    | some x => x < w

/-- The per-date update rule of the entry map, as a function of the stored
entry and the incoming candidate (the `shouldSet` logic of `pdStep`). -/
def updEntry (cur : Option HeatmapEntry) (cand : HeatmapEntry) : Option HeatmapEntry :=
  match cur with
  | none => some cand
  | some ex =>
    match cand.value with
    | none => some ex
    | some v =>
      match ex.value with
      | none => some cand
      | some w => if w < v then some cand else some ex

/-- Value of an optional entry. -/
def entryVal (o : Option HeatmapEntry) : Option JSNum :=
  match o with
  | none => none
  | some he => he.value

/-- Maximum of optional values (null is the identity). -/
def maxOptVal (a b : Option JSNum) : Option JSNum :=
  match a, b with
  | none, b => b
  | some x, none => some x
  | some x, some y => some (max x y)

/-- The running-value-type update for one extracted value: only non-null
boolean/number values participate. -/
def vtUpdate (cur : Option ValueType) (ev : ExtractedValue) : Option ValueType :=
  if ev.value.isSome ∧ (ev.type = ValueType.number ∨ ev.type = ValueType.boolean) then
    vtStep cur ev.type
  else cur

/-- The per-date map update for one candidate entry. -/
def entriesUpdate (m : List (List Char × HeatmapEntry)) (date : List Char)
    (cand : HeatmapEntry) : List (List Char × HeatmapEntry) :=
  if shouldSetB (lookupEntry m date) cand.value then setEntry m date cand else m

/-- One iteration of the `processData` loop: skip entries without a date,
update the running value type (first seen type; any boolean/number mismatch
flips it to unsupported), the running min/max/count over non-null values,
and the per-date map (set when absent, or when the new value is non-null
and the stored one is null or smaller). -/
def pdStep (vp : List Char) (st : PDState) (e : SEntry) : PDState :=
  match e.dateISO with
  | none => st
  | some date =>
    let ev := extractValue vp e.value
    let vt2 : Option ValueType := vtUpdate st.vt ev
    let entries2 := entriesUpdate st.entries date ⟨date, ev.value, e.note, ev.displayValue⟩
    match ev.value with
    | some v => ⟨entries2, min st.statMin v, max st.statMax v, st.count + 1, vt2⟩
    | none => ⟨entries2, st.statMin, st.statMax, st.count, vt2⟩

/-- types.ts stats of `ProcessedData`. -/
structure Stats where
  min : JSNum
  max : JSNum
  count : Nat
  valueType : ValueType
deriving DecidableEq

/-- types.ts `ProcessedData`. -/
structure ProcessedData where
  entries : List (List Char × HeatmapEntry)
  stats : Stats
deriving DecidableEq

/-- data.ts `processData`: fold the entries, then apply the degenerate
range correction (`count == 0` forces the (0, 1) range; an all-equal
positive value forces `min` to 0). -/
def processData (vp : List Char) (entries : List SEntry) : ProcessedData :=
  let st := entries.foldl (pdStep vp) ⟨[], posInf, negInf, 0, none⟩
  let mn : JSNum :=
    if st.count = 0 then 0
    else if st.statMin = st.statMax ∧ 0 < st.statMin then 0
    else st.statMin
  let mx : JSNum := if st.count = 0 then 1 else st.statMax
  ⟨st.entries, ⟨mn, mx, st.count, st.vt.getD ValueType.unsupported⟩⟩

/-! ### Specification-side projections of an entry list (used to state the
extensional properties of `processData`) -/

/-- The boolean/number type contributed by one entry: present exactly when
the entry has a resolved date and a non-null boolean/number value. -/
def typedOf (vp : List Char) (e : SEntry) : Option ValueType :=
  match e.dateISO with
  | none => none
  | some _ =>
    let ev := extractValue vp e.value
    if ev.value.isSome ∧ (ev.type = ValueType.number ∨ ev.type = ValueType.boolean) then
      some ev.type
    else none

/-- The sequence of boolean/number types of the non-null extracted values
among entries with a resolved date, in processing order. -/
def typedTypes (vp : List Char) (es : List SEntry) : List ValueType :=
  es.filterMap (typedOf vp)

/-- The aggregate value type the specification describes: unset stays
unsupported, a homogeneous boolean/number run keeps its type, any mix is
unsupported. -/
def specValueType (ts : List ValueType) : ValueType :=
  match ts with
  | [] => ValueType.unsupported
  | t :: rest => if rest.all (fun u => u = t) then t else ValueType.unsupported

/-- The entries that resolve to date key `D`, in processing order. -/
def entriesFor (D : List Char) (es : List SEntry) : List SEntry :=
  es.filter (fun e => e.dateISO = some D)

/-- The non-null extracted values of the entries resolving to `D`. -/
def contribsFor (vp : List Char) (D : List Char) (es : List SEntry) : List JSNum :=
  (entriesFor D es).filterMap (fun e => (extractValue vp e.value).value)

/-- The candidate entries produced for date key `D`, in processing order. -/
def candsFor (vp : List Char) (D : List Char) (es : List SEntry) : List HeatmapEntry :=
  (entriesFor D es).map (fun e =>
    ⟨D, (extractValue vp e.value).value, e.note, (extractValue vp e.value).displayValue⟩)

/-! ### color.ts -/

/-- color.ts `calculateIntensityNumeric`. -/
def calculateIntensityNumeric (value mn mx : ℚ) : ℚ :=
  if mx = mn then 1
  else if value ≤ mn then 0
  else if mx ≤ value then 1
  else (value - mn) / (mx - mn)

/-! ### date.ts `calculateDateRange` -/

/-- Insertion step of the stable ascending sort: the new element goes
after every element already at most it. -/
def insSorted (le : α → α → Bool) (x : α) : List α → List α
  | [] => [x]
  | y :: ys => if le y x then y :: insSorted le x ys else x :: y :: ys

/-- The JS `Array.prototype.sort` with a total ascending comparator: a
stable sort, embedded as insertion sort (extensionally the same sorted
permutation; structural so that the kernel can evaluate it). -/
def jsSortBy (le : α → α → Bool) (l : List α) : List α :=
  l.foldr (insSorted le) []

/-- Parsed, valid dates among the entry keys: strict ISO first, then the
host's permissive `new Date(string)` parser (external, passed in as
`hostParse`; `none` models an invalid date, filtered by the `isNaN`
check). -/
def keysParsedDates (hostParse : List Char → Option JSDate)
    (keys : List (List Char)) : List JSDate :=
  keys.filterMap (fun k =>
    match parseISODateString k with
    | some d => some d
    | none => hostParse k)

/-- The `x ? parseISODateString(x) : null` pattern of `calculateDateRange`
(a null or empty — falsy — configuration string yields null). -/
def parseMaybeDate (o : Option (List Char)) : Option JSDate :=
  match o with
  | none => none
  | some s => if s = [] then none else parseISODateString s

/-- date.ts `calculateDateRange`.  `today` is the ambient `new Date()`
clock, passed explicitly; `normalizeDate` is the identity of the midnight
model and the `isNaN` guard on `end` never fires there.  The start falls
back to the earliest parseable entry key (ties by time are the same
midnight date), else `new Date(end.getFullYear(), 0, 1)`. -/
def calculateDateRange (hostParse : List Char → Option JSDate) (today : JSDate)
    (keys : List (List Char)) (startDate endDate : Option (List Char)) :
    JSDate × JSDate :=
  let en := (parseMaybeDate endDate).getD today
  match parseMaybeDate startDate with
  | some st => (st, en)
  | none =>
    match jsSortBy (fun a b => dateLe a b) (keysParsedDates hostParse keys) with
    | d :: _ => (d, en)
    | [] => (jsMakeDate en.year 0 1, en)

/-! ### Month labels (date.ts `generateMonthLabels`) -/

/-- types.ts `MonthLabel` (the column instantiation used by the horizontal
layout). -/
structure MonthLabel where
  name : List Char
  startColumn : Int
  endColumn : Int
deriving DecidableEq

/-- Modelled from the spec: the i18n short month names
(`t("dates.monthShort.0")` … `t("dates.monthShort.11")`; the i18n module is
not part of the analyzed sources, so the localized table is modelled by its
English instance — twelve distinct names in calendar order). -/
def monthShortNames : List (List Char) :=
  ["Jan".data, "Feb".data, "Mar".data, "Apr".data, "May".data, "Jun".data,
   "Jul".data, "Aug".data, "Sep".data, "Oct".data, "Nov".data, "Dec".data]

/-- Short name of a 0-based month index. -/
def monthNameOf (m : Int) : List Char := monthShortNames.getD m.toNat []

/-- Insertion into the `weekToMonths` map (JS `Map<number, Set<number>>`:
per-week month sets in insertion order). -/
def insertWM : List (Int × List Int) → Int → Int → List (Int × List Int)
  | [], w, m => [(w, [m])]
  | (w2, ms) :: rest, w, m =>
    if w2 = w then (w2, if m ∈ ms then ms else ms ++ [m]) :: rest
    else (w2, ms) :: insertWM rest w m

/-- Lookup in the `weekToMonths` map. -/
def lookupWM : List (Int × List Int) → Int → Option (List Int)
  | [], _ => none
  | (w2, ms) :: rest, w => if w2 = w then some ms else lookupWM rest w

/-- Mutation of the current (last created) label's end column. -/
def updateLastEnd : List MonthLabel → Int → List MonthLabel
  | [], _ => []
  | [l], e => [{ l with endColumn := e }]
  | l :: ls, e => l :: updateLastEnd ls e

/-- The label-building loop of `generateMonthLabelsBase`: walk the weeks 1
to `totalWeeks`; each week's primary month is the largest month touching it
(`Array.from(set).sort((a, b) => a - b)` then the last element); when the
primary month changes, close the current label at this week and open a new
one reaching `totalWeeks + 1`; finally close the last label at
`totalWeeks + 1`. -/
def buildLabels (wtm : List (Int × List Int)) (totalWeeks : Int) : List MonthLabel :=
  let step := fun (st : List MonthLabel × Int) (week : Int) =>
    match lookupWM wtm week with
    | none => st
    | some ms =>
      let sorted := jsSortBy (fun a b : Int => a ≤ b) ms
      let primary := sorted.getLastD 0
      if primary ≠ st.2 then
        (updateLastEnd st.1 week ++ [⟨monthNameOf primary, week, totalWeeks + 1⟩], primary)
      else st
  let final := ((List.range totalWeeks.toNat).map (fun k => (k : Int) + 1)).foldl step ([], -1)
  updateLastEnd final.1 (totalWeeks + 1)

/-- The day walk of `generateMonthLabelsBase` (`while (current <= end)`
with `setDate(getDate() + 1)`), fueled; the fuel only bounds the number of
iterations and is far larger than any range the view accepts. -/
def dateListAux : Nat → JSDate → JSDate → List JSDate
  | 0, _, _ => []
  | fuel + 1, cur, en =>
    if dateLe cur en then cur :: dateListAux fuel (jsNextDay cur) en else []

/-- Iteration budget of the embedded day walk. -/
def walkFuel : Nat := 4000000

/-- date.ts `generateMonthLabels` (the `generateMonthLabelsBase` skeleton
with the column label callbacks inlined): build the week → months map over
every day of the range, then run the label loop. -/
def generateMonthLabels (rangeStart rangeEnd : JSDate) (weekStart : Nat) :
    List MonthLabel :=
  let days := dateListAux walkFuel rangeStart rangeEnd
  let wtm := days.foldl
    (fun acc d => insertWM acc (getWeekNumber d rangeStart weekStart) d.month) []
  buildLabels wtm (getWeekNumber rangeEnd rangeStart weekStart)

/-! ### Year-class layout (specification side for the month-label claim)

Over a full calendar year the walk visits day indices 0 … 364/365; the
month of index `k` depends only on the leap flag and the week of index `k`
only on the leap flag and the weekday of January 1, so the label
computation factors through those two parameters. -/

/-- Days in the year for a leap flag. -/
def diyN (L : Bool) : Nat := if L then 366 else 365

/-- Month length by leap flag and 0-based month index. -/
def dimN (L : Bool) (m : Nat) : Nat := (monthLenTable L).getD m 31

/-- Days before a month by leap flag and 0-based month index. -/
def dbmN (L : Bool) (m : Nat) : Nat := (daysBeforeMonthTable L).getD m 0

/-- Month and 1-based day of a 0-based day-of-year index (fueled scan over
the twelve months). -/
def mdOfGo (L : Bool) : Nat → Nat → Nat → Nat × Nat
  | 0, m, k => (m, k + 1)
  | fuel + 1, m, k =>
    if k < dimN L m then (m, k + 1) else mdOfGo L fuel (m + 1) (k - dimN L m)

/-- Month and day of a day-of-year index. -/
def mdOf (L : Bool) (k : Nat) : Nat × Nat := mdOfGo L 11 0 k

/-- The date of day-of-year index `k` in year `y`. -/
def dayToDate (y : Int) (L : Bool) (k : Nat) : JSDate :=
  ⟨y, ((mdOf L k).1 : Nat), ((mdOf L k).2 : Nat)⟩

/-- The month-label computation of a full calendar year as a function of
the year class: leap flag `L` and weekday `sd` of January 1. -/
def labelCompute (L : Bool) (sd : Nat) : List MonthLabel :=
  let wtm := (List.range (diyN L)).foldl
    (fun acc (k : Nat) => insertWM acc (((k : Int) + (sd : Int)) / 7 + 1) (((mdOf L k).1 : Int))) []
  buildLabels wtm ((((diyN L - 1 : Nat) : Int) + (sd : Int)) / 7 + 1)

/-! ### HeatmapView.render -/

/-- Modelled from the spec: the i18n lookup `t(key)` of the empty-state
strings (the i18n module is not part of the analyzed sources; keys are
distinct, so the lookup is modelled as the identity on keys, and the one
interpolated argument of the unsupported-property description is not
modelled). -/
def tKey (key : List Char) : List Char := key

/-- HeatmapView.ts `MAX_RANGE_DAYS`. -/
def MAX_RANGE_DAYS : Int := 5 * 365

/-- The view configuration after `getConfig` defaulting. -/
structure HeatmapViewConfig where
  dateProperty : Option (List Char)
  valueProperty : Option (List Char)
  startDate : List Char
  endDate : List Char
  weekStart : Nat
  showWeekdayLabels : Bool
  showMonthLabels : Bool
  cellSizePx : Nat
  minValue : Option ℚ
  maxValue : Option ℚ

/-- Outcome of one `render()` pass: nothing appended (`validateData`
returned null because the host supplied no data object), a structured
empty state (title and description), or the composed heatmap grid (the
DOM renderer and the interaction layer are beyond the data pipeline; the
grid outcome carries what `renderHeatmap` receives). -/
inductive RenderOutcome where
  | blank
  | emptyState (title description : List Char)
  | grid (data : ProcessedData) (rangeStart rangeEnd : JSDate)
deriving instance DecidableEq for RenderOutcome

/-- HeatmapView.ts `render` and `validateData`: the pipeline of
configuration checks, `processData`, the unsupported/empty checks, the
min/max overrides, `calculateDateRange` and the five-year range guard
(`diffDays` is the exact day difference of the midnight model). -/
def renderModel (cfg : HeatmapViewConfig) (dataOpt : Option (List SEntry))
    (hostParse : List Char → Option JSDate) (today : JSDate) : RenderOutcome :=
  match cfg.valueProperty with
  | none =>
    RenderOutcome.emptyState (tKey "view.emptyState.configureProperty".data)
      (tKey "view.emptyState.configurePropertyDesc".data)
  | some vp =>
    let dateCheck : Option RenderOutcome :=
      if cfg.startDate ≠ [] ∧ cfg.endDate ≠ [] then
        match parseISODateString cfg.startDate, parseISODateString cfg.endDate with
        | some s, some e =>
          if civilIndex e ≤ civilIndex s then
            some (RenderOutcome.emptyState (tKey "view.emptyState.startAfterEnd".data)
              (tKey "view.emptyState.startAfterEndDesc".data))
          else none
        | _, _ =>
          some (RenderOutcome.emptyState (tKey "view.emptyState.invalidDateFormat".data)
            (tKey "view.emptyState.invalidDateFormatDesc".data))
      else none
    match dateCheck with
    | some out => out
    | none =>
      match dataOpt with
      | none => RenderOutcome.blank
      | some entries =>
        if entries = [] then
          RenderOutcome.emptyState (tKey "view.emptyState.noData".data)
            (tKey "view.emptyState.noDataDesc".data)
        else
          let pd := processData vp entries
          if pd.stats.valueType = ValueType.unsupported then
            RenderOutcome.emptyState (tKey "view.emptyState.unsupportedProperty".data)
              (tKey "view.emptyState.unsupportedPropertyDesc".data)
          else
            let pd2 : ProcessedData :=
              { pd with stats :=
                { pd.stats with
                    min := (cfg.minValue.map jsNum).getD pd.stats.min,
                    max := (cfg.maxValue.map jsNum).getD pd.stats.max } }
            if pd2.entries = [] then
              RenderOutcome.emptyState (tKey "view.emptyState.noDatedNotes".data)
                (tKey "view.emptyState.noDatedNotesDesc".data)
            else
              let range := calculateDateRange hostParse today (pd2.entries.map (fun p => p.1))
                (some cfg.startDate) (some cfg.endDate)
              let diffDays := civilIndex range.2 - civilIndex range.1
              if MAX_RANGE_DAYS < diffDays then
                RenderOutcome.emptyState (tKey "view.emptyState.rangeTooLarge".data)
                  (tKey "view.emptyState.rangeTooLargeDesc".data)
              else RenderOutcome.grid pd2 range.1 range.2

/-! Sanity checks of the embedded pipeline. -/

example : parseISODateString "2024-01-01".data = some ⟨2024, 0, 1⟩ := by decide

example : jsGetDay ⟨2024, 0, 1⟩ = 1 := by decide

example : formatDateISO ⟨2024, 0, 1⟩ = "2024-01-01".data := by decide

/-! ## Properties of trimming -/

theorem trimRight_idem (s : List Char) : trimRight (trimRight s) = trimRight s := by
  induction s with
  | nil => rfl
  | cons c cs ih =>
    simp only [trimRight]
    by_cases h : trimRight cs = [] ∧ isJSSpace c = true
    · simp [h, trimRight]
    · rw [if_neg h]
      simp only [trimRight, ih]
      rw [if_neg h]

theorem head_trimLeft_not_space {s : List Char} {c : Char} {cs : List Char}
    (h : trimLeft s = c :: cs) : isJSSpace c = false := by
  induction s with
  | nil => simp [trimLeft] at h
  | cons a as ih =>
    simp only [trimLeft, List.dropWhile_cons] at h
    by_cases ha : isJSSpace a = true
    · rw [if_pos ha] at h
      exact ih h
    · rw [if_neg ha] at h
      cases h
      simpa using ha

theorem trimLeft_trimRight_trimLeft (s : List Char) :
    trimLeft (trimRight (trimLeft s)) = trimRight (trimLeft s) := by
  cases h : trimLeft s with
  | nil => simp [trimRight, trimLeft, List.dropWhile]
  | cons c cs =>
    have hc : isJSSpace c = false := head_trimLeft_not_space h
    simp only [trimRight]
    have hcond : ¬(trimRight cs = [] ∧ isJSSpace c = true) := by simp [hc]
    rw [if_neg hcond]
    simp [trimLeft, List.dropWhile_cons, hc]

theorem jsTrim_idem (s : List Char) : jsTrim (jsTrim s) = jsTrim s := by
  show trimRight (trimLeft (trimRight (trimLeft s))) = trimRight (trimLeft s)
  rw [trimLeft_trimRight_trimLeft, trimRight_idem]

/-- C10: `parseISODateString` only looks at the trimmed string, so it is
invariant under trimming its input; in particular a valid ISO date wrapped
in whitespace is accepted and parses to the same date as the bare string. -/
theorem c10_parse_trim_invariant :
    (∀ s : List Char, parseISODateString s = parseISODateString (jsTrim s)) ∧
    parseISODateString ((' ' :: "2024-01-15".data) ++ [' ', '\t']) = some ⟨2024, 0, 15⟩ ∧
    parseISODateString "2024-01-15".data = some ⟨2024, 0, 15⟩ := by
  refine ⟨fun s => ?_, by decide, by decide⟩
  simp only [parseISODateString, jsTrim_idem]

/-! ## Digit and decimal-rendering lemmas -/

theorem digitVal_digitCh {k : Nat} (h : k < 10) : digitVal (digitCh k) = k := by
  interval_cases k <;> decide

theorem isDigitCh_digitCh {k : Nat} (h : k < 10) : isDigitCh (digitCh k) = true := by
  interval_cases k <;> decide

theorem not_space_digitCh {k : Nat} (h : k < 10) : isJSSpace (digitCh k) = false := by
  interval_cases k <;> decide

theorem natReprAux_congr :
    ∀ (f₁ f₂ n : Nat), n < f₁ → n < f₂ → natReprAux f₁ n = natReprAux f₂ n := by
  intro f₁
  induction f₁ with
  | zero => omega
  | succ f ih =>
    intro f₂ n h1 h2
    cases f₂ with
    | zero => omega
    | succ g =>
      simp only [natReprAux]
      by_cases hn : n < 10
      · simp [hn]
      · rw [if_neg hn, if_neg hn]
        have hlt : n / 10 < n := Nat.div_lt_self (by omega) (by omega)
        rw [ih g (n / 10) (by omega) (by omega)]

theorem natRepr_lt10 {n : Nat} (h : n < 10) : natRepr n = [digitCh n] := by
  simp [natRepr, natReprAux, h]

theorem natRepr_step {n : Nat} (h : 10 ≤ n) :
    natRepr n = natRepr (n / 10) ++ [digitCh (n % 10)] := by
  show natReprAux (n + 1) n = _
  rw [natReprAux, if_neg (by omega)]
  have hlt : n / 10 < n := Nat.div_lt_self (by omega) (by omega)
  rw [natReprAux_congr n (n / 10 + 1) (n / 10) (by omega) (by omega)]
  rfl

theorem natRepr_two {n : Nat} (h1 : 10 ≤ n) (h2 : n ≤ 99) :
    natRepr n = [digitCh (n / 10), digitCh (n % 10)] := by
  rw [natRepr_step h1, natRepr_lt10 (by omega)]
  rfl

theorem natRepr_four {n : Nat} (h1 : 1000 ≤ n) (h2 : n ≤ 9999) :
    natRepr n = [digitCh (n / 1000), digitCh (n / 100 % 10),
      digitCh (n / 10 % 10), digitCh (n % 10)] := by
  rw [natRepr_step (by omega), natRepr_step (by omega : 10 ≤ n / 10),
    natRepr_two (by omega : 10 ≤ n / 10 / 10) (by omega)]
  have e1 : n / 10 / 10 = n / 100 := by omega
  have e2 : n / 100 / 10 = n / 1000 := by omega
  have e3 : n / 100 % 10 = n / 10 / 10 % 10 := by omega
  rw [e1, e2]
  simp [e3, e1]

/-! ## Round-trip of `parseISODateString` and `formatDateISO` -/

theorem trimLeft_no_space {s : List Char} (h : ∀ c ∈ s, isJSSpace c = false) :
    trimLeft s = s := by
  cases s with
  | nil => rfl
  | cons c cs => simp [trimLeft, List.dropWhile_cons, h c (by simp)]

theorem trimRight_no_space {s : List Char} (h : ∀ c ∈ s, isJSSpace c = false) :
    trimRight s = s := by
  induction s with
  | nil => rfl
  | cons c cs ih =>
    simp only [trimRight, ih (fun x hx => h x (by simp [hx]))]
    rw [if_neg]
    simp [h c (by simp)]

theorem jsTrim_no_space {s : List Char} (h : ∀ c ∈ s, isJSSpace c = false) :
    jsTrim s = s := by
  show trimRight (trimLeft s) = s
  rw [trimLeft_no_space h, trimRight_no_space h]

theorem isoRender_no_space {y m d : Nat} (hy : y ≤ 9999) (hm : m ≤ 99) (hd : d ≤ 99) :
    ∀ c ∈ isoRender y m d, isJSSpace c = false := by
  intro c hc
  simp only [isoRender, List.mem_cons, List.not_mem_nil, or_false] at hc
  rcases hc with rfl | rfl | rfl | rfl | rfl | rfl | rfl | rfl | rfl | rfl
  · exact not_space_digitCh (by omega)
  · exact not_space_digitCh (by omega)
  · exact not_space_digitCh (by omega)
  · exact not_space_digitCh (by omega)
  · decide
  · exact not_space_digitCh (by omega)
  · exact not_space_digitCh (by omega)
  · decide
  · exact not_space_digitCh (by omega)
  · exact not_space_digitCh (by omega)

theorem isoShape_isoRender {y m d : Nat} (hy : y ≤ 9999) (hm : m ≤ 99) (hd : d ≤ 99) :
    isoShape (isoRender y m d) = true := by
  simp only [isoRender, isoShape, List.getD_cons_zero, List.getD_cons_succ,
    List.length_cons, List.length_nil]
  rw [isDigitCh_digitCh (by omega), isDigitCh_digitCh (by omega),
    isDigitCh_digitCh (by omega), isDigitCh_digitCh (by omega),
    isDigitCh_digitCh (by omega), isDigitCh_digitCh (by omega),
    isDigitCh_digitCh (by omega), isDigitCh_digitCh (by omega)]
  decide

theorem parse_isoRender {y m d : Nat} (hy1 : 1000 ≤ y) (hy2 : y ≤ 9999)
    (hm1 : 1 ≤ m) (hm2 : m ≤ 12) (hd1 : 1 ≤ d) (hd2 : d ≤ 99) :
    parseISODateString (isoRender y m d) =
      some (jsMakeDate (y : Int) ((m : Int) - 1) (d : Int)) := by
  have hns := isoRender_no_space (y := y) (m := m) (d := d) (by omega) (by omega) (by omega)
  simp only [parseISODateString, jsTrim_no_space hns,
    isoShape_isoRender (y := y) (m := m) (d := d) (by omega) (by omega) (by omega),
    if_true]
  have e1 : digitVal (digitCh (y / 1000)) = y / 1000 := digitVal_digitCh (by omega)
  have e2 : digitVal (digitCh (y / 100 % 10)) = y / 100 % 10 := digitVal_digitCh (by omega)
  have e3 : digitVal (digitCh (y / 10 % 10)) = y / 10 % 10 := digitVal_digitCh (by omega)
  have e4 : digitVal (digitCh (y % 10)) = y % 10 := digitVal_digitCh (by omega)
  have e5 : digitVal (digitCh (m / 10)) = m / 10 := digitVal_digitCh (by omega)
  have e6 : digitVal (digitCh (m % 10)) = m % 10 := digitVal_digitCh (by omega)
  have e7 : digitVal (digitCh (d / 10)) = d / 10 := digitVal_digitCh (by omega)
  have e8 : digitVal (digitCh (d % 10)) = d % 10 := digitVal_digitCh (by omega)
  have gy : digitsToNat [digitCh (y / 1000), digitCh (y / 100 % 10),
      digitCh (y / 10 % 10), digitCh (y % 10)] = y := by
    simp only [digitsToNat, List.foldl, e1, e2, e3, e4]
    omega
  have gm : digitsToNat [digitCh (m / 10), digitCh (m % 10)] = m := by
    simp only [digitsToNat, List.foldl, e5, e6]
    omega
  have gd : digitsToNat [digitCh (d / 10), digitCh (d % 10)] = d := by
    simp only [digitsToNat, List.foldl, e7, e8]
    omega
  simp only [isoRender, List.getD_cons_zero, List.getD_cons_succ, gy, gm, gd]

theorem jsMakeDate_valid {y m d : Nat} (hy1 : 100 ≤ y)
    (hm1 : 1 ≤ m) (hm2 : m ≤ 12) (hd1 : 1 ≤ d)
    (hd2 : (d : Int) ≤ monthLen (y : Int) ((m : Int) - 1)) :
    jsMakeDate (y : Int) ((m : Int) - 1) (d : Int) =
      ⟨(y : Int), (m : Int) - 1, (d : Int)⟩ := by
  have hq : ¬(0 ≤ (y : Int) ∧ (y : Int) ≤ 99) := by omega
  simp only [jsMakeDate, if_neg hq]
  rw [show normMonthAux 12 (y : Int) ((m : Int) - 1) = ((y : Int), (m : Int) - 1) by
    rw [normMonthAux, if_neg (by omega), if_neg (by omega)]]
  rw [normDayAux, if_neg (by omega)]
  simp only []
  rw [if_neg (by omega)]

theorem monthLen_le_31 (y m : Int) : monthLen y m ≤ 31 := by
  unfold monthLen
  rcases Nat.lt_or_ge m.toNat 12 with h | h
  · have key : ∀ n, n < 12 → ∀ L : Bool, (monthLenTable L).getD n 31 ≤ 31 := by decide
    exact_mod_cast key m.toNat h (isLeapYear y)
  · rw [List.getD_eq_default]
    · norm_num
    · cases isLeapYear y <;> simp [monthLenTable] <;> omega

theorem formatDateISO_triple {y m d : Nat} (hy1 : 1000 ≤ y) (hy2 : y ≤ 9999)
    (hm1 : 1 ≤ m) (hm2 : m ≤ 12) (hd1 : 1 ≤ d) (hd2 : d ≤ 31) :
    formatDateISO ⟨(y : Int), (m : Int) - 1, (d : Int)⟩ = isoRender y m d := by
  have hm' : ((m : Int) - 1) + 1 = (m : Int) := by ring
  simp only [formatDateISO, hm']
  have hyr : intRepr (y : Int) = natRepr y := by
    simp [intRepr, if_neg (by omega : ¬((y : Int) < 0)), Int.toNat_ofNat]
  have pad : ∀ n : Nat, 1 ≤ n → n ≤ 31 →
      pad2 (n : Int) = [digitCh (n / 10), digitCh (n % 10)] := by
    intro n h1 h2
    have hnr : intRepr (n : Int) = natRepr n := by
      simp [intRepr, if_neg (by omega : ¬((n : Int) < 0)), Int.toNat_ofNat]
    rcases Nat.lt_or_ge n 10 with hn | hn
    · simp only [pad2, hnr, natRepr_lt10 hn]
      rw [if_pos (by simp)]
      have h0 : n / 10 = 0 := by omega
      have h10 : n % 10 = n := by omega
      rw [h0, h10, show ('0' : Char) = digitCh 0 from by decide]
    · simp only [pad2, hnr, natRepr_two hn (by omega)]
      rw [if_neg (by simp)]
  rw [hyr, natRepr_four hy1 hy2, pad m hm1 (by omega), pad d hd1 hd2]
  simp [isoRender]

/-- C4 (amended): the round trip holds for every real calendar date with a
four-digit year of at least 1000 rendered as `YYYY-MM-DD`, and every string
whose trimmed form does not match the `YYYY-MM-DD` shape parses to null. -/
theorem c4_roundtrip_amended :
    (∀ y m d : Nat, 1000 ≤ y → y ≤ 9999 → 1 ≤ m → m ≤ 12 → 1 ≤ d →
      (d : Int) ≤ monthLen (y : Int) ((m : Int) - 1) →
      (parseISODateString (isoRender y m d)).map formatDateISO =
        some (isoRender y m d)) ∧
    (∀ s : List Char, isoShape (jsTrim s) = false → parseISODateString s = none) := by
  constructor
  · intro y m d hy1 hy2 hm1 hm2 hd1 hd2
    have hd31 : d ≤ 31 := by
      have := monthLen_le_31 (y : Int) ((m : Int) - 1)
      omega
    rw [parse_isoRender hy1 hy2 hm1 hm2 hd1 (by omega)]
    rw [jsMakeDate_valid (by omega) hm1 hm2 hd1 hd2]
    show some (formatDateISO _) = _
    rw [formatDateISO_triple hy1 hy2 hm1 hm2 hd1 hd31]
  · intro s h
    simp [parseISODateString, h]

/-- C4 witness: the round trip at 2024-02-29 and a rejected malformed
string. -/
theorem c4_roundtrip_amended_witness :
    ((29 : Nat) : Int) ≤ monthLen ((2024 : Nat) : Int) (((2 : Nat) : Int) - 1) ∧
    (parseISODateString (isoRender 2024 2 29)).map formatDateISO =
      some (isoRender 2024 2 29) ∧
    parseISODateString "2024/01/01".data = none :=
  ⟨by decide,
   c4_roundtrip_amended.1 2024 2 29 (by decide) (by decide) (by decide)
     (by decide) (by decide) (by decide),
   c4_roundtrip_amended.2 "2024/01/01".data (by decide)⟩

/-- C4 counterexample to the claim as stated: the syntactically valid
`YYYY-MM-DD` strings "0100-01-01" (a real date of year 100) and
"2024-02-30" do not round-trip (the year is printed unpadded, and an
out-of-range day rolls over), and the non-`YYYY-MM-DD`-shaped string
" 2024-01-01" is parsed instead of rejected. -/
theorem c4_counterexample :
    (parseISODateString "0100-01-01".data).map formatDateISO =
      some "100-01-01".data ∧
    "100-01-01".data ≠ "0100-01-01".data ∧
    (parseISODateString "2024-02-30".data).map formatDateISO =
      some "2024-03-01".data ∧
    isoShape (' ' :: "2024-01-01".data) = false ∧
    parseISODateString (' ' :: "2024-01-01".data) = some ⟨2024, 0, 1⟩ := by
  refine ⟨by decide, by decide, by decide, by decide, by decide⟩

/-! ## C5: numeric intensity -/

/-- C5: with `min < max` the numeric intensity is 0 at or below the
minimum, 1 at or above the maximum, the linear ratio strictly in between,
and monotone non-decreasing in the value; with `min == max` it is 1
everywhere. -/
theorem c5_intensity_numeric :
    (∀ v mn mx : ℚ, mn < mx →
      (v ≤ mn → calculateIntensityNumeric v mn mx = 0) ∧
      (mx ≤ v → calculateIntensityNumeric v mn mx = 1) ∧
      (mn < v → v < mx →
        calculateIntensityNumeric v mn mx = (v - mn) / (mx - mn)) ∧
      (∀ v2 : ℚ, v ≤ v2 →
        calculateIntensityNumeric v mn mx ≤ calculateIntensityNumeric v2 mn mx)) ∧
    (∀ v mn : ℚ, calculateIntensityNumeric v mn mn = 1) := by
  constructor
  · intro v mn mx h
    have hne : ¬(mx = mn) := by intro e; rw [e] at h; exact lt_irrefl mn h
    refine ⟨?_, ?_, ?_, ?_⟩
    · intro hv
      simp only [calculateIntensityNumeric, if_neg hne, if_pos hv]
    · intro hv
      simp only [calculateIntensityNumeric, if_neg hne,
        if_neg (show ¬ v ≤ mn by linarith), if_pos hv]
    · intro h1 h2
      simp only [calculateIntensityNumeric, if_neg hne,
        if_neg (show ¬ v ≤ mn by linarith), if_neg (show ¬ mx ≤ v by linarith)]
    · intro v2 h12
      simp only [calculateIntensityNumeric, if_neg hne]
      have hd : (0 : ℚ) < mx - mn := by linarith
      by_cases h1 : v ≤ mn
      · rw [if_pos h1]
        by_cases h2 : v2 ≤ mn
        · rw [if_pos h2]
        · rw [if_neg h2]
          by_cases h3 : mx ≤ v2
          · rw [if_pos h3]; norm_num
          · rw [if_neg h3]
            have : (0 : ℚ) ≤ v2 - mn := by linarith
            positivity
      · rw [if_neg h1]
        have hv : mn < v := lt_of_not_ge h1
        by_cases h2 : mx ≤ v
        · rw [if_pos h2, if_neg (show ¬ v2 ≤ mn by linarith),
            if_pos (show mx ≤ v2 by linarith)]
        · rw [if_neg h2, if_neg (show ¬ v2 ≤ mn by linarith)]
          by_cases h4 : mx ≤ v2
          · rw [if_pos h4]
            rw [div_le_one hd]
            linarith
          · rw [if_neg h4]
            exact (div_le_div_iff_of_pos_right hd).mpr (by linarith)
  · intro v mn
    simp [calculateIntensityNumeric]

/-- C5 witness: concrete evaluations at the clamped ends and the
degenerate range. -/
theorem c5_intensity_numeric_witness :
    (0 : ℚ) < 4 ∧ calculateIntensityNumeric 0 0 4 = 0 ∧
    calculateIntensityNumeric 5 0 4 = 1 ∧ calculateIntensityNumeric 3 3 3 = 1 :=
  ⟨by decide,
   ((c5_intensity_numeric.1 0 0 4 (by decide)).1 (by decide)),
   ((c5_intensity_numeric.1 5 0 4 (by decide)).2.1 (by decide)),
   c5_intensity_numeric.2 3 3⟩

/-! ## Projections of the `processData` loop -/

theorem pdStep_vt (vp : List Char) (st : PDState) (e : SEntry) :
    (pdStep vp st e).vt =
      match e.dateISO with
      | none => st.vt
      | some _ => vtUpdate st.vt (extractValue vp e.value) := by
  rcases hd : e.dateISO with _ | D
  · simp [pdStep, hd]
  · simp only [pdStep, hd]
    rcases hval : (extractValue vp e.value).value with _ | v <;> simp [hval]

theorem pdStep_entries (vp : List Char) (st : PDState) (e : SEntry) :
    (pdStep vp st e).entries =
      match e.dateISO with
      | none => st.entries
      | some date =>
        entriesUpdate st.entries date
          ⟨date, (extractValue vp e.value).value, e.note,
            (extractValue vp e.value).displayValue⟩ := by
  rcases hd : e.dateISO with _ | D
  · simp [pdStep, hd]
  · simp only [pdStep, hd]
    rcases hval : (extractValue vp e.value).value with _ | v <;> simp [hval]

theorem vt_foldl (vp : List Char) :
    ∀ (es : List SEntry) (st : PDState),
      (es.foldl (pdStep vp) st).vt = (typedTypes vp es).foldl vtStep st.vt := by
  intro es
  induction es with
  | nil => intro st; rfl
  | cons e rest ih =>
    intro st
    simp only [List.foldl_cons]
    rw [ih, pdStep_vt]
    simp only [typedTypes, List.filterMap_cons]
    rcases hd : e.dateISO with _ | D
    · simp [typedOf, hd, typedTypes]
    · simp only [typedOf, hd]
      by_cases hc : (extractValue vp e.value).value.isSome ∧
          ((extractValue vp e.value).type = ValueType.number ∨
           (extractValue vp e.value).type = ValueType.boolean)
      · simp [vtUpdate, hc, List.foldl_cons, typedTypes]
      · simp [vtUpdate, hc, typedTypes]

theorem vtStep_absorb :
    ∀ ts : List ValueType, (∀ t ∈ ts, t ≠ ValueType.unsupported) →
      ts.foldl vtStep (some ValueType.unsupported) = some ValueType.unsupported := by
  intro ts
  induction ts with
  | nil => intro _; rfl
  | cons t ts ih =>
    intro h
    have ht : t ≠ ValueType.unsupported := h t (by simp)
    simp only [List.foldl_cons, vtStep]
    rw [if_pos (Ne.symm ht)]
    exact ih (fun u hu => h u (by simp [hu]))

theorem vtStep_run :
    ∀ (ts : List ValueType) (t0 : ValueType),
      t0 ≠ ValueType.unsupported → (∀ t ∈ ts, t ≠ ValueType.unsupported) →
      ts.foldl vtStep (some t0) =
        some (if ts.all (fun u => u = t0) then t0 else ValueType.unsupported) := by
  intro ts
  induction ts with
  | nil => intro t0 _ _; simp
  | cons t ts ih =>
    intro t0 h0 h
    by_cases he : t = t0
    · subst he
      simp only [List.foldl_cons]
      rw [show vtStep (some t) t = some t by simp [vtStep]]
      rw [ih t h0 (fun u hu => h u (by simp [hu]))]
      simp [List.all_cons]
    · simp only [List.foldl_cons, vtStep]
      rw [if_pos (Ne.symm he)]
      rw [vtStep_absorb ts (fun u hu => h u (by simp [hu]))]
      have : ((t :: ts).all (fun u => u = t0)) = false := by
        simp [List.all_cons, he]
      rw [this]
      simp

theorem typedTypes_ne_unsupported (vp : List Char) (es : List SEntry) :
    ∀ t ∈ typedTypes vp es, t ≠ ValueType.unsupported := by
  intro t ht
  simp only [typedTypes, List.mem_filterMap] at ht
  obtain ⟨e, _, he⟩ := ht
  unfold typedOf at he
  rcases hd : e.dateISO with _ | D
  · rw [hd] at he
    simp at he
  · rw [hd] at he
    simp only [] at he
    by_cases hc : (extractValue vp e.value).value.isSome ∧
        ((extractValue vp e.value).type = ValueType.number ∨
         (extractValue vp e.value).type = ValueType.boolean)
    · rw [if_pos hc] at he
      have := Option.some_injective _ he
      subst this
      rcases hc.2 with h | h <;> rw [h] <;> decide
    · rw [if_neg hc] at he
      exact absurd he (by simp)

/-- C1: the aggregate `valueType` of `processData` is the first
boolean/number type seen among non-null values of dated entries, flipped to
unsupported on any mismatch (extensional form: a nonempty homogeneous run
keeps its type, anything else is unsupported); the boolean/non-0-1-number
scenario yields unsupported, and so does a run with no typed value. -/
theorem c1_processData_valueType :
    (∀ (vp : List Char) (es : List SEntry),
      (processData vp es).stats.valueType = specValueType (typedTypes vp es)) ∧
    (processData "v".data
      [⟨some "2024-01-01".data, ObsValue.boolV true, 1⟩,
       ⟨some "2024-01-02".data, ObsValue.numV "5".data (some (jsNum 5)), 2⟩]).stats.valueType =
      ValueType.unsupported ∧
    (∀ (vp : List Char) (es : List SEntry), typedTypes vp es = [] →
      (processData vp es).stats.valueType = ValueType.unsupported) := by
  have main : ∀ (vp : List Char) (es : List SEntry),
      (processData vp es).stats.valueType = specValueType (typedTypes vp es) := by
    intro vp es
    show (es.foldl (pdStep vp) ⟨[], posInf, negInf, 0, none⟩).vt.getD
      ValueType.unsupported = _
    rw [vt_foldl]
    rcases h : typedTypes vp es with _ | ⟨t, rest⟩
    · simp [specValueType]
    · have hne := typedTypes_ne_unsupported vp es
      rw [h] at hne
      have h0 : t ≠ ValueType.unsupported := hne t (by simp)
      simp only [List.foldl_cons]
      rw [show vtStep none t = some t from rfl]
      rw [vtStep_run rest t h0 (fun u hu => hne u (by simp [hu]))]
      simp [specValueType]
  exact ⟨main, by decide, fun vp es h => by rw [main vp es, h]; rfl⟩

/-- C3: after the final correction the statistics satisfy the
degenerate-range invariant: an empty count forces the range (0, 1), and the
minimum never equals the maximum while being positive. -/
theorem c3_processData_degenerate_range :
    ∀ (vp : List Char) (es : List SEntry),
      ((processData vp es).stats.count = 0 →
        (processData vp es).stats.min = 0 ∧ (processData vp es).stats.max = 1) ∧
      ¬((processData vp es).stats.min = (processData vp es).stats.max ∧
        0 < (processData vp es).stats.min) := by
  intro vp es
  have hmin : (processData vp es).stats.min =
      (let st := es.foldl (pdStep vp) ⟨[], posInf, negInf, 0, none⟩
       if st.count = 0 then (0 : JSNum)
       else if st.statMin = st.statMax ∧ 0 < st.statMin then (0 : JSNum)
       else st.statMin) := rfl
  have hmax : (processData vp es).stats.max =
      (let st := es.foldl (pdStep vp) ⟨[], posInf, negInf, 0, none⟩
       if st.count = 0 then (1 : JSNum) else st.statMax) := rfl
  have hcount : (processData vp es).stats.count =
      (es.foldl (pdStep vp) ⟨[], posInf, negInf, 0, none⟩).count := rfl
  rw [hmin, hmax, hcount]
  set st := es.foldl (pdStep vp) ⟨[], posInf, negInf, 0, none⟩ with hst
  simp only []
  by_cases h0 : st.count = 0
  · rw [if_pos h0, if_pos h0]
    refine ⟨fun _ => ⟨rfl, rfl⟩, ?_⟩
    rintro ⟨h1, _⟩
    exact absurd h1 (by decide)
  · rw [if_neg h0, if_neg h0]
    by_cases hc : st.statMin = st.statMax ∧ 0 < st.statMin
    · rw [if_pos hc]
      refine ⟨fun hcc => absurd hcc h0, ?_⟩
      rintro ⟨h1, h2⟩
      exact absurd h2 (by simp)
    · rw [if_neg hc]
      exact ⟨fun hcc => absurd hcc h0, hc⟩

/-- C3 witness: the empty query has zero count and the (0, 1) degenerate
range. -/
theorem c3_degenerate_range_witness :
    (processData "v".data []).stats.count = 0 ∧
    (processData "v".data []).stats.min = 0 ∧
    (processData "v".data []).stats.max = 1 := by
  have h := (c3_processData_degenerate_range "v".data []).1 (by decide)
  exact ⟨by decide, h.1, h.2⟩

theorem pd_minmax (vp : List Char) :
    ∀ (es : List SEntry) (st : PDState),
      (0 < st.count → st.statMin ≤ st.statMax) →
      (0 < (es.foldl (pdStep vp) st).count →
        (es.foldl (pdStep vp) st).statMin ≤ (es.foldl (pdStep vp) st).statMax) := by
  intro es
  induction es with
  | nil => intro st h; exact h
  | cons e rest ih =>
    intro st h
    simp only [List.foldl_cons]
    apply ih
    intro hc
    rcases hd : e.dateISO with _ | D
    · have he : pdStep vp st e = st := by simp [pdStep, hd]
      rw [he] at hc ⊢
      exact h hc
    · rcases hval : (extractValue vp e.value).value with _ | v
      · have h1 : (pdStep vp st e).statMin = st.statMin := by simp [pdStep, hd, hval]
        have h2 : (pdStep vp st e).statMax = st.statMax := by simp [pdStep, hd, hval]
        have h3 : (pdStep vp st e).count = st.count := by simp [pdStep, hd, hval]
        rw [h1, h2]
        rw [h3] at hc
        exact h hc
      · have h1 : (pdStep vp st e).statMin = min st.statMin v := by simp [pdStep, hd, hval]
        have h2 : (pdStep vp st e).statMax = max st.statMax v := by simp [pdStep, hd, hval]
        rw [h1, h2]
        exact le_trans (min_le_right _ _) (le_max_right _ _)

/-- C9: the returned statistics never have an inverted range: `min ≤ max`
always holds (the empty case returns (0, 1); otherwise both bounds come
from the same non-null values and the final correction only lowers the
minimum). -/
theorem c9_processData_min_le_max :
    ∀ (vp : List Char) (es : List SEntry),
      (processData vp es).stats.min ≤ (processData vp es).stats.max := by
  intro vp es
  have hmin : (processData vp es).stats.min =
      (let st := es.foldl (pdStep vp) ⟨[], posInf, negInf, 0, none⟩
       if st.count = 0 then (0 : JSNum)
       else if st.statMin = st.statMax ∧ 0 < st.statMin then (0 : JSNum)
       else st.statMin) := rfl
  have hmax : (processData vp es).stats.max =
      (let st := es.foldl (pdStep vp) ⟨[], posInf, negInf, 0, none⟩
       if st.count = 0 then (1 : JSNum) else st.statMax) := rfl
  rw [hmin, hmax]
  set st := es.foldl (pdStep vp) ⟨[], posInf, negInf, 0, none⟩ with hst
  simp only []
  by_cases h0 : st.count = 0
  · rw [if_pos h0, if_pos h0]
    decide
  · rw [if_neg h0, if_neg h0]
    have hmm : st.statMin ≤ st.statMax := by
      refine pd_minmax vp es ⟨[], posInf, negInf, 0, none⟩ (fun hcc => absurd hcc (by simp)) ?_
      exact Nat.pos_of_ne_zero h0
    by_cases hc : st.statMin = st.statMax ∧ 0 < st.statMin
    · rw [if_pos hc]
      exact le_of_lt (lt_of_lt_of_le hc.2 hmm)
    · rw [if_neg hc]
      exact hmm

/-! ## The per-date map of `processData` (max-wins) -/

theorem lookup_setEntry_self :
    ∀ (m : List (List Char × HeatmapEntry)) (k : List Char) (v : HeatmapEntry),
      lookupEntry (setEntry m k v) k = some v := by
  intro m
  induction m with
  | nil => intro k v; simp [setEntry, lookupEntry]
  | cons p rest ih =>
    obtain ⟨pk, pw⟩ := p
    intro k v
    by_cases hk : pk = k
    · simp [setEntry, hk, lookupEntry]
    · simp only [setEntry, if_neg hk, lookupEntry]
      exact ih k v

theorem lookup_setEntry_other :
    ∀ (m : List (List Char × HeatmapEntry)) (k k2 : List Char) (v : HeatmapEntry),
      k2 ≠ k → lookupEntry (setEntry m k2 v) k = lookupEntry m k := by
  intro m
  induction m with
  | nil => intro k k2 v h; simp [setEntry, lookupEntry, h]
  | cons p rest ih =>
    obtain ⟨pk, pw⟩ := p
    intro k k2 v h
    by_cases hk : pk = k2
    · simp only [setEntry, if_pos hk, lookupEntry]
      rw [if_neg (by rw [hk]; exact h), if_neg (by rw [hk]; exact h)]
    · simp only [setEntry, if_neg hk, lookupEntry]
      by_cases hpk : pk = k
      · rw [if_pos hpk, if_pos hpk]
      · rw [if_neg hpk, if_neg hpk]
        exact ih k k2 v h

theorem updEntry_ite (cur : Option HeatmapEntry) (cand : HeatmapEntry) :
    updEntry cur cand = if shouldSetB cur cand.value then some cand else cur := by
  rcases cur with _ | ex
  · rcases hcv : cand.value with _ | v <;> simp [updEntry, shouldSetB, hcv]
  · rcases hcv : cand.value with _ | v
    · simp [updEntry, shouldSetB, hcv]
    · rcases hev : ex.value with _ | w
      · simp [updEntry, shouldSetB, hcv, hev]
      · by_cases hw : w < v <;> simp [updEntry, shouldSetB, hcv, hev, hw]

theorem lookup_entriesUpdate (m : List (List Char × HeatmapEntry))
    (date D : List Char) (cand : HeatmapEntry) :
    lookupEntry (entriesUpdate m date cand) D =
      if date = D then updEntry (lookupEntry m D) cand else lookupEntry m D := by
  by_cases hD : date = D
  · subst hD
    rw [if_pos rfl, updEntry_ite]
    unfold entriesUpdate
    by_cases hs : shouldSetB (lookupEntry m date) cand.value
    · rw [if_pos hs, if_pos hs, lookup_setEntry_self]
    · rw [if_neg hs, if_neg hs]
  · rw [if_neg hD]
    unfold entriesUpdate
    by_cases hs : shouldSetB (lookupEntry m date) cand.value
    · rw [if_pos hs, lookup_setEntry_other m D date cand hD]
    · rw [if_neg hs]

theorem entries_foldl (vp : List Char) :
    ∀ (es : List SEntry) (st : PDState) (D : List Char),
      lookupEntry ((es.foldl (pdStep vp) st).entries) D =
        (candsFor vp D es).foldl updEntry (lookupEntry st.entries D) := by
  intro es
  induction es with
  | nil => intro st D; rfl
  | cons e rest ih =>
    intro st D
    simp only [List.foldl_cons]
    rw [ih, pdStep_entries]
    rcases hd : e.dateISO with _ | date
    · have hf : candsFor vp D (e :: rest) = candsFor vp D rest := by
        simp [candsFor, entriesFor, List.filter_cons, hd]
      rw [hf]
    · rw [lookup_entriesUpdate]
      by_cases hD : date = D
      · rw [hD] at hd
        rw [hD]
        rw [if_pos rfl]
        have hf : candsFor vp D (e :: rest) =
            ⟨D, (extractValue vp e.value).value, e.note,
              (extractValue vp e.value).displayValue⟩ :: candsFor vp D rest := by
          simp [candsFor, entriesFor, List.filter_cons, hd]
        rw [hf, List.foldl_cons]
      · have hf : candsFor vp D (e :: rest) = candsFor vp D rest := by
          simp only [candsFor, entriesFor, List.filter_cons, hd]
          rw [if_neg (by simp [hD])]
        rw [hf, if_neg hD]

theorem entryVal_updEntry (acc : Option HeatmapEntry) (c : HeatmapEntry) :
    entryVal (updEntry acc c) = maxOptVal (entryVal acc) c.value := by
  rcases acc with _ | ex
  · simp [updEntry, entryVal, maxOptVal]
  · rcases hcv : c.value with _ | v
    · rcases hev : ex.value with _ | w <;>
        simp [updEntry, hcv, entryVal, maxOptVal, hev]
    · rcases hev : ex.value with _ | w
      · simp [updEntry, hcv, hev, entryVal, maxOptVal]
      · by_cases hw : w < v
        · simp [updEntry, hcv, hev, hw, entryVal, maxOptVal]
          exact le_of_lt hw
        · simp [updEntry, hcv, hev, hw, entryVal, maxOptVal]
          exact le_of_not_lt hw

theorem entryVal_foldl :
    ∀ (cands : List HeatmapEntry) (acc : Option HeatmapEntry),
      entryVal (cands.foldl updEntry acc) =
        cands.foldl (fun a c => maxOptVal a c.value) (entryVal acc) := by
  intro cands
  induction cands with
  | nil => intro acc; rfl
  | cons c cs ih =>
    intro acc
    simp only [List.foldl_cons]
    rw [ih, entryVal_updEntry]

theorem foldl_updEntry_ne_none :
    ∀ (cands : List HeatmapEntry) (ex : HeatmapEntry),
      cands.foldl updEntry (some ex) ≠ none := by
  intro cands
  induction cands with
  | nil => intro ex h; exact absurd h (by simp)
  | cons c cs ih =>
    intro ex
    simp only [List.foldl_cons]
    rcases hcv : c.value with _ | v
    · rw [show updEntry (some ex) c = some ex by simp [updEntry, hcv]]
      exact ih ex
    · rcases hev : ex.value with _ | w
      · rw [show updEntry (some ex) c = some c by simp [updEntry, hcv, hev]]
        exact ih c
      · by_cases hw : w < v
        · rw [show updEntry (some ex) c = some c by simp [updEntry, hcv, hev, hw]]
          exact ih c
        · rw [show updEntry (some ex) c = some ex by simp [updEntry, hcv, hev, hw]]
          exact ih ex

theorem foldl_updEntry_none_iff :
    ∀ cands : List HeatmapEntry, cands.foldl updEntry none = none ↔ cands = [] := by
  intro cands
  rcases cands with _ | ⟨c, cs⟩
  · simp
  · simp only [List.foldl_cons]
    rw [show updEntry none c = some c from rfl]
    exact ⟨fun h => absurd h (foldl_updEntry_ne_none cs c), fun h => absurd h (by simp)⟩

theorem maxOptVal_none_right (a : Option JSNum) : maxOptVal a none = a := by
  rcases a with _ | x <;> rfl

theorem maxOptVal_skip :
    ∀ (vals : List (Option JSNum)) (a : Option JSNum),
      vals.foldl maxOptVal a =
        (vals.filterMap id).foldl (fun x v => maxOptVal x (some v)) a := by
  intro vals
  induction vals with
  | nil => intro a; rfl
  | cons v vs ih =>
    intro a
    rcases v with _ | x
    · simp only [List.foldl_cons, List.filterMap_cons, maxOptVal_none_right]
      exact ih a
    · simp only [List.foldl_cons, List.filterMap_cons]
      exact ih (maxOptVal a (some x))

theorem maxfold_some :
    ∀ (vs : List JSNum) (x : JSNum),
      ∃ r, vs.foldl (fun a v => maxOptVal a (some v)) (some x) = some r ∧
        (r = x ∨ r ∈ vs) ∧ x ≤ r ∧ ∀ w ∈ vs, w ≤ r := by
  intro vs
  induction vs with
  | nil => intro x; exact ⟨x, rfl, Or.inl rfl, le_refl x, by simp⟩
  | cons v vs ih =>
    intro x
    simp only [List.foldl_cons]
    rw [show maxOptVal (some x) (some v) = some (max x v) from rfl]
    obtain ⟨r, hr, hmem, hle, hall⟩ := ih (max x v)
    refine ⟨r, hr, ?_, le_trans (le_max_left x v) hle, ?_⟩
    · rcases hmem with rfl | h
      · rcases max_choice x v with h | h
        · exact Or.inl h
        · exact Or.inr (by simp [h])
      · exact Or.inr (by simp [h])
    · intro w hw
      rcases List.mem_cons.mp hw with rfl | h
      · exact le_trans (le_max_right x w) hle
      · exact hall w h

theorem candsFor_vals (vp : List Char) (D : List Char) (es : List SEntry) :
    ((candsFor vp D es).map (fun c => c.value)).filterMap id = contribsFor vp D es := by
  unfold candsFor contribsFor
  rw [List.map_map, List.filterMap_map]
  rfl

/-- C2: on duplicate dates the stored entry carries the largest non-null
value: the map has an entry for a date exactly when some raw entry resolves
to it; the stored value is null exactly when every same-date contribution
was null (so a non-null value always replaces a null one, and null never
replaces non-null); and a stored non-null value is the maximum of the
non-null contributions; the 5-versus-3 scenario keeps 5. -/
theorem c2_processData_max_wins :
    (∀ (vp : List Char) (es : List SEntry) (D : List Char),
      (lookupEntry (processData vp es).entries D = none ↔ entriesFor D es = []) ∧
      (∀ he, lookupEntry (processData vp es).entries D = some he →
        (he.value = none ↔ contribsFor vp D es = []) ∧
        (∀ v, he.value = some v →
          v ∈ contribsFor vp D es ∧ ∀ w ∈ contribsFor vp D es, w ≤ v))) ∧
    (lookupEntry (processData "v".data
        [⟨some "2024-01-01".data, ObsValue.numV "5".data (some (jsNum 5)), 1⟩,
         ⟨some "2024-01-01".data, ObsValue.numV "3".data (some (jsNum 3)), 2⟩]).entries
      "2024-01-01".data).map (fun he => he.value) = some (some (jsNum 5)) := by
  constructor
  · intro vp es D
    have hL : lookupEntry (processData vp es).entries D =
        (candsFor vp D es).foldl updEntry none := by
      show lookupEntry ((es.foldl (pdStep vp) ⟨[], posInf, negInf, 0, none⟩).entries) D = _
      rw [entries_foldl]
      rfl
    constructor
    · rw [hL, foldl_updEntry_none_iff]
      unfold candsFor
      simp
    · intro he hhe
      have hv : he.value =
          (contribsFor vp D es).foldl (fun a v => maxOptVal a (some v)) none := by
        have h1 : entryVal (some he) =
            entryVal ((candsFor vp D es).foldl updEntry none) := by
          rw [← hL, hhe]
        rw [entryVal_foldl] at h1
        have h2 : (candsFor vp D es).foldl (fun a c => maxOptVal a c.value)
            (entryVal none) =
            ((candsFor vp D es).map (fun c => c.value)).foldl maxOptVal none := by
          rw [List.foldl_map]
          rfl
        rw [h2, maxOptVal_skip, candsFor_vals] at h1
        exact h1
      constructor
      · constructor
        · intro hn
          rcases hcon : contribsFor vp D es with _ | ⟨c, cs⟩
          · rfl
          · rw [hcon] at hv
            simp only [List.foldl_cons] at hv
            rw [show maxOptVal none (some c) = some c from rfl] at hv
            obtain ⟨r, hr, _, _, _⟩ := maxfold_some cs c
            rw [hr] at hv
            rw [hv] at hn
            exact absurd hn (by simp)
        · intro hc
          rw [hv, hc]
          rfl
      · intro v hvv
        rcases hcon : contribsFor vp D es with _ | ⟨c, cs⟩
        · rw [hcon] at hv
          rw [hv] at hvv
          exact absurd hvv (by simp)
        · rw [hcon] at hv
          simp only [List.foldl_cons] at hv
          rw [show maxOptVal none (some c) = some c from rfl] at hv
          obtain ⟨r, hr, hmem, hle, hall⟩ := maxfold_some cs c
          rw [hr] at hv
          rw [hv] at hvv
          have hvr : v = r := by
            injection hvv with h
            exact h.symm
          subst hvr
          constructor
          · rcases hmem with rfl | h
            · simp
            · simp [h]
          · intro w hw
            rcases List.mem_cons.mp hw with rfl | h
            · exact hle
            · exact hall w h
  · decide

/-- C2 witness: the max-wins characterization applied to the duplicate-date
scenario. -/
theorem c2_processData_max_wins_witness :
    jsNum 5 ∈ contribsFor "v".data "2024-01-01".data
      [⟨some "2024-01-01".data, ObsValue.numV "5".data (some (jsNum 5)), 1⟩,
       ⟨some "2024-01-01".data, ObsValue.numV "3".data (some (jsNum 3)), 2⟩] ∧
    ∀ w ∈ contribsFor "v".data "2024-01-01".data
      [⟨some "2024-01-01".data, ObsValue.numV "5".data (some (jsNum 5)), 1⟩,
       ⟨some "2024-01-01".data, ObsValue.numV "3".data (some (jsNum 3)), 2⟩],
      w ≤ jsNum 5 :=
  ((c2_processData_max_wins.1 "v".data
      [⟨some "2024-01-01".data, ObsValue.numV "5".data (some (jsNum 5)), 1⟩,
       ⟨some "2024-01-01".data, ObsValue.numV "3".data (some (jsNum 3)), 2⟩]
      "2024-01-01".data).2
    ⟨"2024-01-01".data, some (jsNum 5), 1, "5".data⟩ (by decide)).2
    (jsNum 5) (by decide)

/-! ## Sorting lemmas and `calculateDateRange` (C8) -/

theorem insSorted_perm (le : α → α → Bool) (x : α) :
    ∀ l : List α, (insSorted le x l).Perm (x :: l) := by
  intro l
  induction l with
  | nil => exact List.Perm.refl _
  | cons y ys ih =>
    by_cases h : le y x
    · rw [insSorted, if_pos h]
      exact (List.Perm.cons y ih).trans (List.Perm.swap x y ys)
    · rw [insSorted, if_neg h]

theorem jsSortBy_perm (le : α → α → Bool) :
    ∀ l : List α, (jsSortBy le l).Perm l := by
  intro l
  induction l with
  | nil => exact List.Perm.refl _
  | cons x xs ih =>
    show (insSorted le x (jsSortBy le xs)).Perm (x :: xs)
    exact (insSorted_perm le x _).trans (List.Perm.cons x ih)

theorem insSorted_sorted (le : α → α → Bool)
    (htrans : ∀ a b c, le a b = true → le b c = true → le a c = true)
    (htot : ∀ a b, le a b = true ∨ le b a = true) (x : α) :
    ∀ l : List α, l.Pairwise (fun a b => le a b = true) →
      (insSorted le x l).Pairwise (fun a b => le a b = true) := by
  intro l
  induction l with
  | nil => intro _; simp [insSorted]
  | cons y ys ih =>
    intro hp
    rw [List.pairwise_cons] at hp
    obtain ⟨hy, hys⟩ := hp
    by_cases h : le y x
    · rw [insSorted, if_pos h, List.pairwise_cons]
      constructor
      · intro b hb
        have hb2 : b ∈ x :: ys := ((insSorted_perm le x ys).mem_iff).mp hb
        rcases List.mem_cons.mp hb2 with rfl | hbys
        · exact h
        · exact hy b hbys
      · exact ih hys
    · rw [insSorted, if_neg h, List.pairwise_cons]
      have hxy : le x y = true := by
        rcases htot x y with h2 | h2
        · exact h2
        · exact absurd h2 h
      constructor
      · intro b hb
        rcases List.mem_cons.mp hb with rfl | hbys
        · exact hxy
        · exact htrans x y b hxy (hy b hbys)
      · rw [List.pairwise_cons]
        exact ⟨hy, hys⟩

theorem jsSortBy_sorted (le : α → α → Bool)
    (htrans : ∀ a b c, le a b = true → le b c = true → le a c = true)
    (htot : ∀ a b, le a b = true ∨ le b a = true) :
    ∀ l : List α, (jsSortBy le l).Pairwise (fun a b => le a b = true) := by
  intro l
  induction l with
  | nil => simp [jsSortBy]
  | cons x xs ih =>
    show (insSorted le x (jsSortBy le xs)).Pairwise _
    exact insSorted_sorted le htrans htot x _ ih

theorem jsMakeDate_jan1 (y : Int) (h : ¬(0 ≤ y ∧ y ≤ 99)) :
    jsMakeDate y 0 1 = ⟨y, 0, 1⟩ := by
  simp only [jsMakeDate, if_neg h]
  rw [show normMonthAux 12 y 0 = (y, 0) by
    rw [normMonthAux, if_neg (by omega), if_neg (by omega)]]
  rw [normDayAux, if_neg (by omega)]
  rw [if_neg (by
    simp only [monthLen, monthLenTable]
    rw [show ((0 : Int)).toNat = 0 from rfl, List.getD_cons_zero]
    omega)]

theorem cdr_snd (hostParse : List Char → Option JSDate) (today : JSDate)
    (keys : List (List Char)) (startDate endDate : Option (List Char)) :
    (calculateDateRange hostParse today keys startDate endDate).2 =
      (parseMaybeDate endDate).getD today := by
  unfold calculateDateRange
  rcases parseMaybeDate startDate with _ | st
  · rcases jsSortBy (fun a b => dateLe a b) (keysParsedDates hostParse keys) with _ | ⟨d, rest⟩ <;> rfl
  · rfl

theorem parseMaybeDate_some (s : List Char) :
    parseMaybeDate (some s) = parseISODateString s := by
  by_cases h : s = []
  · subst h
    rfl
  · simp [parseMaybeDate, h]

/-- C8 (amended): the end bound is the strict-ISO parse of the end string
when that succeeds, else the current day; the start bound is the strict-ISO
parse of the start string when that succeeds, else the earliest
(strict-or-permissively) parseable entry key, else — provided the end's
year is not in 0..99, where `new Date(year, 0, 1)` relocates to 1900+year —
January 1 of the end's year; the 2024-03-05 / 2024-01-10 scenario starts at
2024-01-10. -/
theorem c8_calculateDateRange_amended :
    (∀ (hostParse : List Char → Option JSDate) (today : JSDate)
        (keys : List (List Char)) (startStr endStr : Option (List Char)),
      ((endStr = none → (calculateDateRange hostParse today keys startStr endStr).2 = today) ∧
       (∀ s, endStr = some s → parseISODateString s = none →
         (calculateDateRange hostParse today keys startStr endStr).2 = today) ∧
       (∀ s e, endStr = some s → parseISODateString s = some e →
         (calculateDateRange hostParse today keys startStr endStr).2 = e)) ∧
      ((∀ s st2, startStr = some s → parseISODateString s = some st2 →
         (calculateDateRange hostParse today keys startStr endStr).1 = st2) ∧
       (parseMaybeDate startStr = none →
         (keysParsedDates hostParse keys ≠ [] →
           (calculateDateRange hostParse today keys startStr endStr).1 ∈
             keysParsedDates hostParse keys ∧
           ∀ d ∈ keysParsedDates hostParse keys,
             civilIndex (calculateDateRange hostParse today keys startStr endStr).1 ≤
               civilIndex d) ∧
         (keysParsedDates hostParse keys = [] →
           ¬(0 ≤ ((calculateDateRange hostParse today keys startStr endStr).2).year ∧
              ((calculateDateRange hostParse today keys startStr endStr).2).year ≤ 99) →
           (calculateDateRange hostParse today keys startStr endStr).1 =
             ⟨((calculateDateRange hostParse today keys startStr endStr).2).year, 0, 1⟩)))) ∧
    (calculateDateRange (fun _ => none) ⟨2026, 9, 12⟩
      ["2024-03-05".data, "2024-01-10".data] none none).1 = ⟨2024, 0, 10⟩ := by
  constructor
  · intro hostParse today keys startStr endStr
    constructor
    · refine ⟨?_, ?_, ?_⟩
      · intro h
        subst h
        rw [cdr_snd]
        rfl
      · intro s h hp
        subst h
        rw [cdr_snd, parseMaybeDate_some, hp]
        rfl
      · intro s e h hp
        subst h
        rw [cdr_snd, parseMaybeDate_some, hp]
        rfl
    · constructor
      · intro s st2 h hp
        subst h
        unfold calculateDateRange
        rw [parseMaybeDate_some, hp]
      · intro hps
        set en := (parseMaybeDate endStr).getD today with hen
        have hr : calculateDateRange hostParse today keys startStr endStr =
            (match jsSortBy (fun a b => dateLe a b) (keysParsedDates hostParse keys) with
             | d :: _ => (d, en)
             | [] => (jsMakeDate en.year 0 1, en)) := by
          unfold calculateDateRange
          rw [hps]
        constructor
        · intro hne
          have hperm := jsSortBy_perm (fun a b => dateLe a b)
            (keysParsedDates hostParse keys)
          have hsorted := jsSortBy_sorted (fun a b => dateLe a b)
            (fun a b c h1 h2 => by
              simp only [dateLe, decide_eq_true_eq] at h1 h2 ⊢
              exact le_trans h1 h2)
            (fun a b => by
              simp only [dateLe, decide_eq_true_eq]
              exact le_total _ _)
            (keysParsedDates hostParse keys)
          rcases hs : jsSortBy (fun a b => dateLe a b) (keysParsedDates hostParse keys)
            with _ | ⟨d, rest⟩
          · rw [hs] at hperm
            exact absurd hperm.symm.eq_nil hne
          · rw [hr, hs]
            rw [hs] at hperm hsorted
            rw [List.pairwise_cons] at hsorted
            constructor
            · exact hperm.mem_iff.mp (by simp)
            · intro w hw
              rcases List.mem_cons.mp (hperm.symm.mem_iff.mp hw) with rfl | hwr
              · exact le_refl _
              · have := hsorted.1 w hwr
                simpa [dateLe, decide_eq_true_eq] using this
        · intro hkeys hyear
          have hsnd : (calculateDateRange hostParse today keys startStr endStr).2 = en := by
            rw [cdr_snd]
          rw [hsnd] at hyear ⊢
          rw [hr, hkeys]
          simp only [jsSortBy, List.foldr]
          exact jsMakeDate_jan1 en.year hyear
  · decide

/-- C8 witness: concrete instances of the end default and of the
minimum-key start. -/
theorem c8_calculateDateRange_amended_witness :
    (calculateDateRange (fun _ => none) ⟨2026, 9, 12⟩
      ["2024-03-05".data, "2024-01-10".data] none none).2 = ⟨2026, 9, 12⟩ ∧
    (calculateDateRange (fun _ => none) ⟨2026, 9, 12⟩
      ["2024-03-05".data, "2024-01-10".data] none none).1 ∈
      keysParsedDates (fun _ => none) ["2024-03-05".data, "2024-01-10".data] :=
  ⟨(((c8_calculateDateRange_amended.1 (fun _ => none) ⟨2026, 9, 12⟩
      ["2024-03-05".data, "2024-01-10".data] none none).1).1) rfl,
   ((((c8_calculateDateRange_amended.1 (fun _ => none) ⟨2026, 9, 12⟩
      ["2024-03-05".data, "2024-01-10".data] none none).2).2 rfl).1 (by decide)).1⟩

/-- C8 counterexample to the claim as stated: with no keys and no start
string, the end string "0100-00-15" strict-parses to December 15 of year 99
(month index −1 borrows into the previous year), and the fallback start
`new Date(99, 0, 1)` is January 1 of 1999, not of the end's year 99. -/
theorem c8_counterexample :
    calculateDateRange (fun _ => none) ⟨2026, 9, 12⟩ [] none (some "0100-00-15".data) =
      (⟨1999, 0, 1⟩, ⟨99, 11, 15⟩) ∧
    (⟨1999, 0, 1⟩ : JSDate).year ≠ (⟨99, 11, 15⟩ : JSDate).year := by
  exact ⟨by decide, by decide⟩

/-! ## C7: the five-year range guard of `render` -/

/-- C7: whenever the render pipeline reaches the range computation (value
property configured, configured date strings valid and ordered, data
present and nonempty, value type supported, some dated entries) and the
computed range exceeds `MAX_RANGE_DAYS`, the render aborts with the
structured range-too-large empty state — in particular no grid outcome and
no exception (the model is a total function into outcomes). -/
theorem c7_range_guard :
    ∀ (cfg : HeatmapViewConfig) (entries : List SEntry)
      (hostParse : List Char → Option JSDate) (today : JSDate) (vp : List Char),
      cfg.valueProperty = some vp →
      (cfg.startDate ≠ [] ∧ cfg.endDate ≠ [] →
        ∃ s e, parseISODateString cfg.startDate = some s ∧
          parseISODateString cfg.endDate = some e ∧ civilIndex s < civilIndex e) →
      entries ≠ [] →
      (processData vp entries).stats.valueType ≠ ValueType.unsupported →
      (processData vp entries).entries ≠ [] →
      MAX_RANGE_DAYS <
        civilIndex (calculateDateRange hostParse today
            ((processData vp entries).entries.map (fun p => p.1))
            (some cfg.startDate) (some cfg.endDate)).2 -
          civilIndex (calculateDateRange hostParse today
            ((processData vp entries).entries.map (fun p => p.1))
            (some cfg.startDate) (some cfg.endDate)).1 →
      renderModel cfg (some entries) hostParse today =
        RenderOutcome.emptyState (tKey "view.emptyState.rangeTooLarge".data)
          (tKey "view.emptyState.rangeTooLargeDesc".data) := by
  intro cfg entries hostParse today vp hvp hdates hne hvt hent hdiff
  have hdc : (if cfg.startDate ≠ [] ∧ cfg.endDate ≠ [] then
      match parseISODateString cfg.startDate, parseISODateString cfg.endDate with
      | some s, some e =>
        if civilIndex e ≤ civilIndex s then
          some (RenderOutcome.emptyState (tKey "view.emptyState.startAfterEnd".data)
            (tKey "view.emptyState.startAfterEndDesc".data))
        else none
      | _, _ =>
        some (RenderOutcome.emptyState (tKey "view.emptyState.invalidDateFormat".data)
          (tKey "view.emptyState.invalidDateFormatDesc".data))
      else none) = none := by
    by_cases hse : cfg.startDate ≠ [] ∧ cfg.endDate ≠ []
    · obtain ⟨s, e, hs, he2, hlt⟩ := hdates hse
      rw [if_pos hse, hs, he2]
      exact if_neg (not_le.mpr hlt)
    · rw [if_neg hse]
  simp only [renderModel, hvp]
  rw [hdc]
  simp only []
  rw [if_neg hne, if_neg hvt, if_neg hent, if_pos hdiff]

/-- C7 witness: a 2015–2024 configured range (over 5 years) aborts with the
range-too-large empty state. -/
theorem c7_range_guard_witness :
    renderModel
      ⟨none, some "score".data, "2015-01-01".data, "2024-12-31".data, 0,
        true, true, 11, none, none⟩
      (some [⟨some "2020-06-01".data, ObsValue.boolV true, 7⟩])
      (fun _ => none) ⟨2026, 9, 12⟩ =
      RenderOutcome.emptyState (tKey "view.emptyState.rangeTooLarge".data)
        (tKey "view.emptyState.rangeTooLargeDesc".data) :=
  c7_range_guard
    ⟨none, some "score".data, "2015-01-01".data, "2024-12-31".data, 0,
      true, true, 11, none, none⟩
    [⟨some "2020-06-01".data, ObsValue.boolV true, 7⟩]
    (fun _ => none) ⟨2026, 9, 12⟩ "score".data rfl
    (fun _ => ⟨⟨2015, 0, 1⟩, ⟨2024, 11, 31⟩, by decide, by decide, by decide⟩)
    (by decide) (by decide) (by decide) (by decide)

/-! ## C6: month labels over a full calendar year

The walk over a full year is reduced to the year-class computation
`labelCompute` (leap flag and weekday of January 1), and the claim is then
checked on the fourteen classes. -/

theorem md_facts :
    ∀ L : Bool, ∀ k, k < diyN L →
      (dbmN L (mdOf L k).1 + (mdOf L k).2 = k + 1) ∧
      ((mdOf L k).1 ≤ 11 ∧ 1 ≤ (mdOf L k).2 ∧ (mdOf L k).2 ≤ dimN L (mdOf L k).1) ∧
      (k + 1 < diyN L →
        (if (mdOf L k).2 + 1 ≤ dimN L (mdOf L k).1
         then ((mdOf L k).1, (mdOf L k).2 + 1)
         else ((mdOf L k).1 + 1, 1)) = mdOf L (k + 1)) := by decide

theorem md_first_last :
    ∀ L : Bool, mdOf L 0 = (0, 1) ∧ mdOf L (diyN L - 1) = (11, 31) := by decide

theorem monthLen_cast {y : Int} {L : Bool} (hL : isLeapYear y = L) (m : Nat) :
    monthLen y (m : Int) = (dimN L m : Int) := by
  simp [monthLen, dimN, hL, Int.toNat_ofNat]

theorem daysBeforeMonth_cast {y : Int} {L : Bool} (hL : isLeapYear y = L) (m : Nat) :
    daysBeforeMonth (isLeapYear y) (m : Int) = (dbmN L m : Int) := by
  simp [daysBeforeMonth, dbmN, hL, Int.toNat_ofNat]

theorem dbmN_zero (L : Bool) : dbmN L 0 = 0 := by cases L <;> rfl

theorem civil_dayToDate {y : Int} {L : Bool} (hL : isLeapYear y = L)
    {k : Nat} (hk : k < diyN L) :
    civilIndex (dayToDate y L k) = civilIndex ⟨y, 0, 1⟩ + k := by
  obtain ⟨h1, _, _⟩ := md_facts L k hk
  simp only [dayToDate, civilIndex]
  rw [daysBeforeMonth_cast hL]
  rw [show ((0 : Int)) = ((0 : Nat) : Int) from rfl, daysBeforeMonth_cast hL]
  rw [dbmN_zero]
  omega

theorem getDayOfWeek_zero (d : JSDate) : getDayOfWeek d 0 = jsGetDay d := by
  simp [getDayOfWeek]

theorem week_dayToDate {y : Int} {L : Bool} (hL : isLeapYear y = L)
    {k : Nat} (hk : k < diyN L) :
    getWeekNumber (dayToDate y L k) ⟨y, 0, 1⟩ 0 =
      ((k : Int) + ((jsGetDay ⟨y, 0, 1⟩).toNat : Int)) / 7 + 1 := by
  have hnn : 0 ≤ jsGetDay ⟨y, 0, 1⟩ := Int.emod_nonneg _ (by norm_num)
  simp only [getWeekNumber, getDayOfWeek_zero]
  rw [civil_dayToDate hL hk, Int.toNat_of_nonneg hnn]
  congr 2
  omega

theorem dec31_eq_dayToDate {y : Int} (L : Bool) :
    dayToDate y L (diyN L - 1) = ⟨y, 11, 31⟩ := by
  simp [dayToDate, (md_first_last L).2]

theorem total_weeks {y : Int} {L : Bool} (hL : isLeapYear y = L) :
    getWeekNumber ⟨y, 11, 31⟩ ⟨y, 0, 1⟩ 0 =
      (((diyN L - 1 : Nat) : Int) + ((jsGetDay ⟨y, 0, 1⟩).toNat : Int)) / 7 + 1 := by
  rw [← dec31_eq_dayToDate (y := y) L]
  exact week_dayToDate hL (by cases L <;> decide)

theorem nextDay_step {y : Int} {L : Bool} (hL : isLeapYear y = L)
    {k : Nat} (hk : k + 1 < diyN L) :
    jsNextDay (dayToDate y L k) = dayToDate y L (k + 1) := by
  obtain ⟨_, ⟨hm, hd1, hd2⟩, hstep⟩ := md_facts L k (by omega)
  obtain ⟨_, ⟨hm2, hd12, hd22⟩, _⟩ := md_facts L (k + 1) hk
  have hstep2 := hstep hk
  simp only [jsNextDay, dayToDate]
  by_cases hc : (mdOf L k).2 + 1 ≤ dimN L (mdOf L k).1
  · rw [if_pos hc] at hstep2
    rw [normDayAux, if_neg (by omega)]
    rw [if_neg (by rw [monthLen_cast hL]; omega)]
    rw [← hstep2]
    simp
  · rw [if_neg hc] at hstep2
    have hmlt : (mdOf L k).1 + 1 ≤ 11 := by
      rw [← hstep2] at hm2
      simpa using hm2
    have hdim1 : 1 ≤ dimN L ((mdOf L k).1 + 1) := by
      rw [← hstep2] at hd22 hd12
      simpa using hd22
    rw [normDayAux, if_neg (by omega)]
    rw [if_pos (by rw [monthLen_cast hL]; omega)]
    rw [show normMonthAux 12 y (((mdOf L k).1 : Int) + 1) =
        (y, ((mdOf L k).1 : Int) + 1) by
      rw [normMonthAux, if_neg (by omega), if_neg (by omega)]]
    simp only []
    rw [monthLen_cast hL]
    rw [show ((mdOf L k).2 : Int) + 1 - (dimN L (mdOf L k).1 : Int) = 1 by omega]
    rw [normDayAux, if_neg (by omega)]
    have hc2 : ¬ (monthLen y (((mdOf L k).1 : Int) + 1) < 1) := by
      rw [show ((mdOf L k).1 : Int) + 1 = (((mdOf L k).1 + 1 : Nat) : Int) by omega]
      rw [monthLen_cast hL]
      omega
    rw [if_neg hc2]
    rw [← hstep2]
    simp

theorem nextDay_dec31 (y : Int) : jsNextDay ⟨y, 11, 31⟩ = ⟨y + 1, 0, 1⟩ := by
  have hml : monthLen y 11 = 31 := by
    unfold monthLen monthLenTable
    cases isLeapYear y <;> rfl
  have hml2 : monthLen (y + 1) 0 = 31 := by
    unfold monthLen monthLenTable
    cases isLeapYear (y + 1) <;> rfl
  simp only [jsNextDay]
  rw [normDayAux, if_neg (by omega), if_pos (by rw [hml]; omega)]
  rw [show normMonthAux 12 y (11 + 1) = (y + 1, 0) by
    rw [normMonthAux, if_neg (by omega), if_pos (by omega)]
    rw [normMonthAux, if_neg (by omega), if_neg (by omega)]
    norm_num]
  simp only []
  rw [hml]
  rw [normDayAux, if_neg (by omega), if_neg (by rw [hml2]; omega)]
  norm_num

theorem dateListAux_nil {c en : JSDate} (h : dateLe c en = false) :
    ∀ f, dateListAux f c en = [] := by
  intro f
  cases f with
  | zero => rfl
  | succ g =>
    rw [dateListAux, if_neg (by rw [h]; exact Bool.false_ne_true)]

theorem dateLe_in_walk {y : Int} {L : Bool} (hL : isLeapYear y = L)
    {k : Nat} (hk : k < diyN L) :
    dateLe (dayToDate y L k) ⟨y, 11, 31⟩ = true := by
  have h1 := civil_dayToDate hL hk
  have h2 := civil_dayToDate hL (k := diyN L - 1) (by cases L <;> decide)
  rw [dec31_eq_dayToDate] at h2
  simp only [dateLe, decide_eq_true_eq]
  omega

theorem leap_step {y : Int} {L : Bool} (hL : isLeapYear y = L) :
    leapsBefore (y + 1) = leapsBefore y + (if L then 1 else 0) := by
  cases L
  · have hA : ¬(y % 4 = 0 ∧ (¬ y % 100 = 0 ∨ y % 400 = 0)) := by
      intro hcon
      have ht : isLeapYear y = true := by
        rcases hcon.2 with h | h
        · simp [isLeapYear, hcon.1, h]
        · simp [isLeapYear, hcon.1, h]
      rw [ht] at hL
      exact absurd hL (by decide)
    rw [if_neg (show ¬(false = true) by decide)]
    unfold leapsBefore
    omega
  · have hA : y % 4 = 0 ∧ (¬ y % 100 = 0 ∨ y % 400 = 0) := by
      by_cases h4 : y % 4 = 0
      · by_cases h100 : y % 100 = 0
        · by_cases h400 : y % 400 = 0
          · exact ⟨h4, Or.inr h400⟩
          · exfalso
            have hf : isLeapYear y = false := by
              simp [isLeapYear, h4, h100, h400]
            rw [hf] at hL
            exact absurd hL (by decide)
        · exact ⟨h4, Or.inl h100⟩
      · exfalso
        have hf : isLeapYear y = false := by
          simp [isLeapYear, h4]
        rw [hf] at hL
        exact absurd hL (by decide)
    rw [if_pos rfl]
    unfold leapsBefore
    omega

theorem dateLe_exit {y : Int} {L : Bool} (hL : isLeapYear y = L) :
    dateLe ⟨y + 1, 0, 1⟩ ⟨y, 11, 31⟩ = false := by
  have hls := leap_step hL
  have hdbm0 : daysBeforeMonth (isLeapYear (y + 1)) 0 = 0 := by
    unfold daysBeforeMonth daysBeforeMonthTable
    cases isLeapYear (y + 1) <;> rfl
  have hdbm11 : daysBeforeMonth (isLeapYear y) 11 = (if L then 335 else 334) := by
    rw [hL]
    cases L <;> rfl
  simp only [dateLe, civilIndex, hdbm0, hdbm11, decide_eq_false_iff_not, not_le]
  cases L
  · rw [if_neg (show ¬(false = true) by decide)] at hls ⊢
    omega
  · rw [if_pos rfl] at hls ⊢
    omega

theorem walk_aux {y : Int} {L : Bool} (hL : isLeapYear y = L) :
    ∀ (n k fuel : Nat), 1 ≤ n → k + n = diyN L → n ≤ fuel →
      dateListAux fuel (dayToDate y L k) ⟨y, 11, 31⟩ =
        (List.range' k n).map (dayToDate y L) := by
  intro n
  induction n with
  | zero => omega
  | succ m ih =>
    intro k fuel h1 hk hf
    rcases fuel with _ | f
    · omega
    rw [dateListAux, if_pos (dateLe_in_walk hL (by omega))]
    rw [List.range'_succ, List.map_cons]
    congr 1
    rcases Nat.eq_zero_or_pos m with hm | hm
    · subst hm
      have hklast : k = diyN L - 1 := by omega
      subst hklast
      rw [dec31_eq_dayToDate, nextDay_dec31]
      rw [show List.range' (diyN L - 1 + 1) 0 = [] from rfl]
      simp only [List.map_nil]
      exact dateListAux_nil (dateLe_exit hL) f
    · rw [nextDay_step hL (by omega)]
      exact ih (k + 1) f hm (by omega) (by omega)

theorem foldl_ext_mem {α : Type} {β : Type} (f g : β → α → β) :
    ∀ (l : List α) (b : β), (∀ a ∈ l, ∀ x, f x a = g x a) →
      l.foldl f b = l.foldl g b := by
  intro l
  induction l with
  | nil => intro b _; rfl
  | cons a as ih =>
    intro b h
    simp only [List.foldl_cons]
    rw [h a (by simp) b]
    exact ih _ (fun a2 ha2 x => h a2 (by simp [ha2]) x)

theorem generateMonthLabels_class (y : Int) {L : Bool}
    (hL : isLeapYear y = L) :
    generateMonthLabels ⟨y, 0, 1⟩ ⟨y, 11, 31⟩ 0 =
      labelCompute L ((jsGetDay ⟨y, 0, 1⟩).toNat) := by
  have h0 : dayToDate y L 0 = ⟨y, 0, 1⟩ := by
    simp [dayToDate, (md_first_last L).1]
  have hdiy1 : 1 ≤ diyN L := by cases L <;> decide
  have hdays : dateListAux walkFuel ⟨y, 0, 1⟩ ⟨y, 11, 31⟩ =
      (List.range' 0 (diyN L)).map (dayToDate y L) := by
    rw [← h0]
    exact walk_aux hL (diyN L) 0 walkFuel hdiy1 (by omega) (by cases L <;> decide)
  simp only [generateMonthLabels, labelCompute]
  rw [hdays, total_weeks hL, List.range_eq_range', List.foldl_map]
  congr 1
  apply foldl_ext_mem
  intro k hk acc
  have hk2 : k < diyN L := by
    rw [List.mem_range'_1] at hk
    omega
  rw [week_dayToDate hL hk2]
  rfl

/-! The fourteen year-class label tables. -/

theorem c6_table_f0 : labelCompute false 0 =
    [⟨"Jan".data, 1, 5⟩,
     ⟨"Feb".data, 5, 9⟩,
     ⟨"Mar".data, 9, 13⟩,
     ⟨"Apr".data, 13, 18⟩,
     ⟨"May".data, 18, 22⟩,
     ⟨"Jun".data, 22, 26⟩,
     ⟨"Jul".data, 26, 31⟩,
     ⟨"Aug".data, 31, 35⟩,
     ⟨"Sep".data, 35, 40⟩,
     ⟨"Oct".data, 40, 44⟩,
     ⟨"Nov".data, 44, 48⟩,
     ⟨"Dec".data, 48, 54⟩] := by decide

theorem c6_table_t0 : labelCompute true 0 =
    [⟨"Jan".data, 1, 5⟩,
     ⟨"Feb".data, 5, 9⟩,
     ⟨"Mar".data, 9, 14⟩,
     ⟨"Apr".data, 14, 18⟩,
     ⟨"May".data, 18, 22⟩,
     ⟨"Jun".data, 22, 27⟩,
     ⟨"Jul".data, 27, 31⟩,
     ⟨"Aug".data, 31, 35⟩,
     ⟨"Sep".data, 35, 40⟩,
     ⟨"Oct".data, 40, 44⟩,
     ⟨"Nov".data, 44, 48⟩,
     ⟨"Dec".data, 48, 54⟩] := by decide

theorem c6_table_f1 : labelCompute false 1 =
    [⟨"Jan".data, 1, 5⟩,
     ⟨"Feb".data, 5, 9⟩,
     ⟨"Mar".data, 9, 14⟩,
     ⟨"Apr".data, 14, 18⟩,
     ⟨"May".data, 18, 22⟩,
     ⟨"Jun".data, 22, 27⟩,
     ⟨"Jul".data, 27, 31⟩,
     ⟨"Aug".data, 31, 35⟩,
     ⟨"Sep".data, 35, 40⟩,
     ⟨"Oct".data, 40, 44⟩,
     ⟨"Nov".data, 44, 48⟩,
     ⟨"Dec".data, 48, 54⟩] := by decide

theorem c6_table_t1 : labelCompute true 1 =
    [⟨"Jan".data, 1, 5⟩,
     ⟨"Feb".data, 5, 9⟩,
     ⟨"Mar".data, 9, 14⟩,
     ⟨"Apr".data, 14, 18⟩,
     ⟨"May".data, 18, 22⟩,
     ⟨"Jun".data, 22, 27⟩,
     ⟨"Jul".data, 27, 31⟩,
     ⟨"Aug".data, 31, 36⟩,
     ⟨"Sep".data, 36, 40⟩,
     ⟨"Oct".data, 40, 44⟩,
     ⟨"Nov".data, 44, 49⟩,
     ⟨"Dec".data, 49, 54⟩] := by decide

theorem c6_table_f2 : labelCompute false 2 =
    [⟨"Jan".data, 1, 5⟩,
     ⟨"Feb".data, 5, 9⟩,
     ⟨"Mar".data, 9, 14⟩,
     ⟨"Apr".data, 14, 18⟩,
     ⟨"May".data, 18, 22⟩,
     ⟨"Jun".data, 22, 27⟩,
     ⟨"Jul".data, 27, 31⟩,
     ⟨"Aug".data, 31, 36⟩,
     ⟨"Sep".data, 36, 40⟩,
     ⟨"Oct".data, 40, 44⟩,
     ⟨"Nov".data, 44, 49⟩,
     ⟨"Dec".data, 49, 54⟩] := by decide

theorem c6_table_t2 : labelCompute true 2 =
    [⟨"Jan".data, 1, 5⟩,
     ⟨"Feb".data, 5, 9⟩,
     ⟨"Mar".data, 9, 14⟩,
     ⟨"Apr".data, 14, 18⟩,
     ⟨"May".data, 18, 23⟩,
     ⟨"Jun".data, 23, 27⟩,
     ⟨"Jul".data, 27, 31⟩,
     ⟨"Aug".data, 31, 36⟩,
     ⟨"Sep".data, 36, 40⟩,
     ⟨"Oct".data, 40, 44⟩,
     ⟨"Nov".data, 44, 49⟩,
     ⟨"Dec".data, 49, 54⟩] := by decide

theorem c6_table_f3 : labelCompute false 3 =
    [⟨"Jan".data, 1, 5⟩,
     ⟨"Feb".data, 5, 9⟩,
     ⟨"Mar".data, 9, 14⟩,
     ⟨"Apr".data, 14, 18⟩,
     ⟨"May".data, 18, 23⟩,
     ⟨"Jun".data, 23, 27⟩,
     ⟨"Jul".data, 27, 31⟩,
     ⟨"Aug".data, 31, 36⟩,
     ⟨"Sep".data, 36, 40⟩,
     ⟨"Oct".data, 40, 44⟩,
     ⟨"Nov".data, 44, 49⟩,
     ⟨"Dec".data, 49, 54⟩] := by decide

theorem c6_table_t3 : labelCompute true 3 =
    [⟨"Jan".data, 1, 5⟩,
     ⟨"Feb".data, 5, 10⟩,
     ⟨"Mar".data, 10, 14⟩,
     ⟨"Apr".data, 14, 18⟩,
     ⟨"May".data, 18, 23⟩,
     ⟨"Jun".data, 23, 27⟩,
     ⟨"Jul".data, 27, 31⟩,
     ⟨"Aug".data, 31, 36⟩,
     ⟨"Sep".data, 36, 40⟩,
     ⟨"Oct".data, 40, 45⟩,
     ⟨"Nov".data, 45, 49⟩,
     ⟨"Dec".data, 49, 54⟩] := by decide

theorem c6_table_f4 : labelCompute false 4 =
    [⟨"Jan".data, 1, 6⟩,
     ⟨"Feb".data, 6, 10⟩,
     ⟨"Mar".data, 10, 14⟩,
     ⟨"Apr".data, 14, 18⟩,
     ⟨"May".data, 18, 23⟩,
     ⟨"Jun".data, 23, 27⟩,
     ⟨"Jul".data, 27, 31⟩,
     ⟨"Aug".data, 31, 36⟩,
     ⟨"Sep".data, 36, 40⟩,
     ⟨"Oct".data, 40, 45⟩,
     ⟨"Nov".data, 45, 49⟩,
     ⟨"Dec".data, 49, 54⟩] := by decide

theorem c6_table_t4 : labelCompute true 4 =
    [⟨"Jan".data, 1, 6⟩,
     ⟨"Feb".data, 6, 10⟩,
     ⟨"Mar".data, 10, 14⟩,
     ⟨"Apr".data, 14, 18⟩,
     ⟨"May".data, 18, 23⟩,
     ⟨"Jun".data, 23, 27⟩,
     ⟨"Jul".data, 27, 32⟩,
     ⟨"Aug".data, 32, 36⟩,
     ⟨"Sep".data, 36, 40⟩,
     ⟨"Oct".data, 40, 45⟩,
     ⟨"Nov".data, 45, 49⟩,
     ⟨"Dec".data, 49, 54⟩] := by decide

theorem c6_table_f5 : labelCompute false 5 =
    [⟨"Jan".data, 1, 6⟩,
     ⟨"Feb".data, 6, 10⟩,
     ⟨"Mar".data, 10, 14⟩,
     ⟨"Apr".data, 14, 18⟩,
     ⟨"May".data, 18, 23⟩,
     ⟨"Jun".data, 23, 27⟩,
     ⟨"Jul".data, 27, 32⟩,
     ⟨"Aug".data, 32, 36⟩,
     ⟨"Sep".data, 36, 40⟩,
     ⟨"Oct".data, 40, 45⟩,
     ⟨"Nov".data, 45, 49⟩,
     ⟨"Dec".data, 49, 54⟩] := by decide

theorem c6_table_t5 : labelCompute true 5 =
    [⟨"Jan".data, 1, 6⟩,
     ⟨"Feb".data, 6, 10⟩,
     ⟨"Mar".data, 10, 14⟩,
     ⟨"Apr".data, 14, 19⟩,
     ⟨"May".data, 19, 23⟩,
     ⟨"Jun".data, 23, 27⟩,
     ⟨"Jul".data, 27, 32⟩,
     ⟨"Aug".data, 32, 36⟩,
     ⟨"Sep".data, 36, 40⟩,
     ⟨"Oct".data, 40, 45⟩,
     ⟨"Nov".data, 45, 49⟩,
     ⟨"Dec".data, 49, 54⟩] := by decide

theorem c6_table_f6 : labelCompute false 6 =
    [⟨"Jan".data, 1, 6⟩,
     ⟨"Feb".data, 6, 10⟩,
     ⟨"Mar".data, 10, 14⟩,
     ⟨"Apr".data, 14, 19⟩,
     ⟨"May".data, 19, 23⟩,
     ⟨"Jun".data, 23, 27⟩,
     ⟨"Jul".data, 27, 32⟩,
     ⟨"Aug".data, 32, 36⟩,
     ⟨"Sep".data, 36, 40⟩,
     ⟨"Oct".data, 40, 45⟩,
     ⟨"Nov".data, 45, 49⟩,
     ⟨"Dec".data, 49, 54⟩] := by decide

theorem c6_table_t6 : labelCompute true 6 =
    [⟨"Jan".data, 1, 6⟩,
     ⟨"Feb".data, 6, 10⟩,
     ⟨"Mar".data, 10, 14⟩,
     ⟨"Apr".data, 14, 19⟩,
     ⟨"May".data, 19, 23⟩,
     ⟨"Jun".data, 23, 27⟩,
     ⟨"Jul".data, 27, 32⟩,
     ⟨"Aug".data, 32, 36⟩,
     ⟨"Sep".data, 36, 41⟩,
     ⟨"Oct".data, 41, 45⟩,
     ⟨"Nov".data, 45, 49⟩,
     ⟨"Dec".data, 49, 55⟩] := by decide

set_option maxHeartbeats 4000000 in
/-- C6: over any full calendar year with week start Sunday the month labels
are exactly twelve, named January through December in order, starting at
week 1, with contiguous non-overlapping nonempty column spans whose last
end column is `totalWeeks + 1`. -/
theorem c6_month_labels (y : Int) (_hy : 1 ≤ y) :
    (generateMonthLabels ⟨y, 0, 1⟩ ⟨y, 11, 31⟩ 0).length = 12 ∧
    (generateMonthLabels ⟨y, 0, 1⟩ ⟨y, 11, 31⟩ 0).map MonthLabel.name = monthShortNames ∧
    ((generateMonthLabels ⟨y, 0, 1⟩ ⟨y, 11, 31⟩ 0).getD 0 ⟨[], 0, 0⟩).startColumn = 1 ∧
    (∀ i, i < 11 →
      ((generateMonthLabels ⟨y, 0, 1⟩ ⟨y, 11, 31⟩ 0).getD (i + 1) ⟨[], 0, 0⟩).startColumn =
        ((generateMonthLabels ⟨y, 0, 1⟩ ⟨y, 11, 31⟩ 0).getD i ⟨[], 0, 0⟩).endColumn) ∧
    (∀ i, i < 12 →
      ((generateMonthLabels ⟨y, 0, 1⟩ ⟨y, 11, 31⟩ 0).getD i ⟨[], 0, 0⟩).startColumn <
        ((generateMonthLabels ⟨y, 0, 1⟩ ⟨y, 11, 31⟩ 0).getD i ⟨[], 0, 0⟩).endColumn) ∧
    ((generateMonthLabels ⟨y, 0, 1⟩ ⟨y, 11, 31⟩ 0).getD 11 ⟨[], 0, 0⟩).endColumn =
      getWeekNumber ⟨y, 11, 31⟩ ⟨y, 0, 1⟩ 0 + 1 := by
  obtain ⟨L, hL⟩ : ∃ L, isLeapYear y = L := ⟨_, rfl⟩
  obtain ⟨sd, hsd⟩ : ∃ sd, (jsGetDay ⟨y, 0, 1⟩).toNat = sd := ⟨_, rfl⟩
  have hsd7 : sd < 7 := by
    rw [← hsd]
    have h1 : 0 ≤ jsGetDay ⟨y, 0, 1⟩ := Int.emod_nonneg _ (by norm_num)
    have h2 : jsGetDay ⟨y, 0, 1⟩ < 7 := Int.emod_lt_of_pos _ (by norm_num)
    omega
  rw [generateMonthLabels_class y hL, total_weeks hL, hsd]
  interval_cases sd <;> cases L
  · rw [c6_table_f0]
    decide
  · rw [c6_table_t0]
    decide
  · rw [c6_table_f1]
    decide
  · rw [c6_table_t1]
    decide
  · rw [c6_table_f2]
    decide
  · rw [c6_table_t2]
    decide
  · rw [c6_table_f3]
    decide
  · rw [c6_table_t3]
    decide
  · rw [c6_table_f4]
    decide
  · rw [c6_table_t4]
    decide
  · rw [c6_table_f5]
    decide
  · rw [c6_table_t5]
    decide
  · rw [c6_table_f6]
    decide
  · rw [c6_table_t6]
    decide

/-- C6 witness: the 2024 calendar year yields the twelve ordered labels. -/
theorem c6_month_labels_witness :
    (1 : Int) ≤ 2024 ∧
    (generateMonthLabels ⟨2024, 0, 1⟩ ⟨2024, 11, 31⟩ 0).length = 12 ∧
    (generateMonthLabels ⟨2024, 0, 1⟩ ⟨2024, 11, 31⟩ 0).map MonthLabel.name =
      monthShortNames :=
  ⟨by decide, (c6_month_labels 2024 (by decide)).1,
    (c6_month_labels 2024 (by decide)).2.1⟩
